import Mathlib

/-!
# Laintale: the game-mode state machine of `c+++.cpp`

A shallow embedding of the per-tick update of `main` (the `UPDATE` section of the
frame loop) together with the helpers it calls.  `float` quantities are taken in an
arbitrary linearly ordered field `K` with a floor function (exact arithmetic: `ℚ` for
evaluation, `ℝ` for the real-number reading); `int` quantities are `Int`.  The square
root used to normalise the input vector is a parameter `sqrtf : K → K`.

Members that the program never assigns after construction (`p.size`, `p.speed`,
`soul.size`, `soul.speed`, `soul.maxHp`, `enemyMaxHp`, `hpAnimDur`, `soulFlyDur`,
`walk.frameTime`, `encounter.trigger`, `walls`, `battleBox`) are constants of the model.
Rendering and audio calls do not write any of the state below and are left out.
-/

namespace Laintale

section Model

variable {K : Type} [LinearOrderedField K] [FloorRing K]

/-! ## Data model -/

/-- Counterpart of `sf::Vector2f`. -/
structure Vector2f (K : Type) where
  x : K
  y : K
  deriving DecidableEq

/-- Counterpart of `sf::FloatRect`: a position and a size. -/
structure FloatRect (K : Type) where
  position : Vector2f K
  size : Vector2f K
  deriving DecidableEq

instance : Add (Vector2f K) := ⟨fun a b => ⟨a.x + b.x, a.y + b.y⟩⟩
instance : Sub (Vector2f K) := ⟨fun a b => ⟨a.x - b.x, a.y - b.y⟩⟩
instance : HMul (Vector2f K) K (Vector2f K) := ⟨fun a k => ⟨a.x * k, a.y * k⟩⟩
instance : HDiv (Vector2f K) K (Vector2f K) := ⟨fun a k => ⟨a.x / k, a.y / k⟩⟩

/-- The function `clampf` of the source: `max(lo, min(hi, v))`. -/
def clampf (v lo hi : K) : K := max lo (min hi v)

def leftOf (r : FloatRect K) : K := r.position.x
def topOf (r : FloatRect K) : K := r.position.y
def rightOf (r : FloatRect K) : K := r.position.x + r.size.x
def bottomOf (r : FloatRect K) : K := r.position.y + r.size.y

inductive GameMode where
  | Overworld
  | EncounterMenu
  | SoulFlyIn
  | Battle
  | AttackTurn
  | DamageMsg
  | EnemyDefeated
  | Victory
  | GameOver
  deriving DecidableEq, Repr

structure Bullet (K : Type) where
  pos : Vector2f K
  vel : Vector2f K
  r : K
  alive : Bool
  deriving DecidableEq

/-- The method `Bullet::update`: `pos += vel * dt`. -/
def Bullet.update (b : Bullet K) (dt : K) : Bullet K :=
  { b with pos := b.pos + b.vel * dt }

structure PlayerOverworld (K : Type) where
  pos : Vector2f K
  deriving DecidableEq

/-- The member `PlayerOverworld::size`, never assigned: the 28 x 28 hitbox. -/
def PlayerOverworld.size (_ : PlayerOverworld K) : Vector2f K := ⟨28, 28⟩

/-- The member `PlayerOverworld::speed`, never assigned. -/
def PlayerOverworld.speed (_ : PlayerOverworld K) : K := 220

structure Soul (K : Type) where
  pos : Vector2f K
  hp : Int
  invuln : Bool
  invulnTimer : K
  deriving DecidableEq

/-- The member `Soul::size`, never assigned: the 14 x 14 hitbox. -/
def Soul.size (_ : Soul K) : Vector2f K := ⟨14, 14⟩

/-- The member `Soul::speed`, never assigned. -/
def Soul.speed (_ : Soul K) : K := 260

/-- The member `Soul::maxHp`, never assigned. -/
def Soul.maxHp (_ : Soul K) : Int := 20

structure Encounter where
  active : Bool
  deriving DecidableEq

/-- The member `Encounter::trigger`, never assigned after construction in `main`. -/
def Encounter.trigger (_ : Encounter) : FloatRect K := ⟨⟨640, 250⟩, ⟨80, 80⟩⟩

inductive Dir where
  | Up
  | Down
  | Left
  | Right
  deriving DecidableEq, Repr

structure WalkAnim (K : Type) where
  dir : Dir
  frame : Int
  timer : K
  moving : Bool
  deriving DecidableEq

/-- The member `WalkAnim::frameTime`, never assigned. -/
def WalkAnim.frameTime (_ : WalkAnim K) : K := 1 / 10

/-- Modelled from the spec: the body of `intersects` is the library call
`a.findIntersection(b).has_value()`, whose code is not part of the sources.  Following
section 4.1 ("whether their areas overlap") and the definition in SFML 3, the two
rectangles, normalised for negative sizes, intersect when their overlap has positive
width and height; rectangles that only touch do not intersect. -/
def intersects (a b : FloatRect K) : Bool :=
  let r1MinX := min a.position.x (a.position.x + a.size.x)
  let r1MaxX := max a.position.x (a.position.x + a.size.x)
  let r1MinY := min a.position.y (a.position.y + a.size.y)
  let r1MaxY := max a.position.y (a.position.y + a.size.y)
  let r2MinX := min b.position.x (b.position.x + b.size.x)
  let r2MaxX := max b.position.x (b.position.x + b.size.x)
  let r2MinY := min b.position.y (b.position.y + b.size.y)
  let r2MaxY := max b.position.y (b.position.y + b.size.y)
  let interLeft := max r1MinX r2MinX
  let interTop := max r1MinY r2MinY
  let interRight := min r1MaxX r2MaxX
  let interBottom := min r1MaxY r2MaxY
  decide (interLeft < interRight ∧ interTop < interBottom)

/-- The helper `justPressed`: the returned pair is (`pressed`, new value of `prev`),
where `now` is the sampled state of the key. -/
def justPressed (now prev : Bool) : Bool × Bool := (now && !prev, now)

/-- The mutable state of `main` that the update section reads and writes. -/
structure Game (K : Type) where
  mode : GameMode
  p : PlayerOverworld K
  encounter : Encounter
  soul : Soul K
  bullets : List (Bullet K)
  spawnTimer : K
  battleTime : K
  defeatTimer : K
  lastDamage : Int
  msgTimer : K
  enemyHp : Int
  enemyHpShown : K
  enemyHpFrom : K
  enemyHpTo : K
  hpAnimT : K
  battleStage : Int
  menuIndex : Int
  playedHpDownSfx : Bool
  soulFlyStart : Vector2f K
  soulFlyTarget : Vector2f K
  soulFlyT : K
  walk : WalkAnim K
  prevE : Bool
  prevEnter : Bool
  prevEsc : Bool
  prevW : Bool
  prevS : Bool
  deriving DecidableEq

/-- What one iteration of the frame loop reads from outside: the sampled key states
(`sf::Keyboard::isKeyPressed`), the time returned by `clock.restart().asSeconds()`,
and the results of the calls of `rand()` made during the tick (in call order). -/
structure Input (K : Type) where
  keyW : Bool
  keyS : Bool
  keyA : Bool
  keyD : Bool
  keyE : Bool
  keyEnter : Bool
  keyEscape : Bool
  keyR : Bool
  elapsed : K
  rand : Nat → Nat

/-! ## Constants of `main` -/

def W : K := 900
def H : K := 520

/-- The local `enemyMaxHp` of `main`, never assigned. -/
def enemyMaxHp : Int := 100

/-- The local `hpAnimDur` of `main`, never assigned. -/
def hpAnimDur : K := 17 / 10

/-- The local `soulFlyDur` of `main`, never assigned. -/
def soulFlyDur : K := 3 / 2

/-- The overworld walls pushed at start-up, with `t = 30`. -/
def walls : List (FloatRect K) :=
  let t : K := 30
  [ ⟨⟨0, 0⟩, ⟨W, t⟩⟩,
    ⟨⟨0, H - t⟩, ⟨W, t⟩⟩,
    ⟨⟨0, 0⟩, ⟨t, H⟩⟩,
    ⟨⟨W - t, 0⟩, ⟨t, H⟩⟩,
    ⟨⟨360, 180⟩, ⟨160, 40⟩⟩ ]

def battleBox : FloatRect K := ⟨⟨260, 140⟩, ⟨380, 240⟩⟩

/-- The centre of the battle box as a soul top-left position (used for the initial
soul position, the fly-in target and the re-centring after `DamageMsg`). -/
def boxCentre (soul : Soul K) : Vector2f K :=
  ⟨leftOf (battleBox : FloatRect K) + (battleBox : FloatRect K).size.x / 2 - soul.size.x / 2,
   topOf (battleBox : FloatRect K) + (battleBox : FloatRect K).size.y / 2 - soul.size.y / 2⟩

/-- The state of `main` when the frame loop is entered. -/
def init : Game K :=
  let soul : Soul K := ⟨⟨0, 0⟩, 20, false, 0⟩
  { mode := GameMode.Overworld
    p := ⟨⟨120, 260⟩⟩
    encounter := ⟨true⟩
    soul := { soul with pos := boxCentre soul }
    bullets := []
    spawnTimer := 0
    battleTime := 0
    defeatTimer := 0
    lastDamage := 0
    msgTimer := 0
    enemyHp := enemyMaxHp
    enemyHpShown := (enemyMaxHp : K)
    enemyHpFrom := (enemyMaxHp : K)
    enemyHpTo := (enemyMaxHp : K)
    hpAnimT := 0
    battleStage := 1
    menuIndex := 0
    playedHpDownSfx := false
    soulFlyStart := ⟨0, 0⟩
    soulFlyTarget := ⟨0, 0⟩
    soulFlyT := 0
    walk := ⟨Dir.Down, 0, 0, false⟩
    prevE := false
    prevEnter := false
    prevEsc := false
    prevW := false
    prevS := false }

/-! ## Helpers of the update section -/

/-- The lambda `startBattlePhase`. -/
def startBattlePhase (g : Game K) : Game K :=
  { g with
    mode := GameMode.Battle
    bullets := []
    spawnTimer := 0
    battleTime := 0
    soul := { g.soul with invuln := false, invulnTimer := 0 } }

/-- The lambda `startSoulFlyIn`. -/
def startSoulFlyIn (g : Game K) : Game K :=
  let playerCenter : Vector2f K := ⟨g.p.pos.x + g.p.size.x / 2, g.p.pos.y + g.p.size.y / 2⟩
  let soulFlyStart : Vector2f K :=
    ⟨playerCenter.x - g.soul.size.x / 2, playerCenter.y - g.soul.size.y / 2⟩
  let boxCenter : Vector2f K :=
    ⟨leftOf (battleBox : FloatRect K) + (battleBox : FloatRect K).size.x / 2,
     topOf (battleBox : FloatRect K) + (battleBox : FloatRect K).size.y / 2⟩
  let soulFlyTarget : Vector2f K :=
    ⟨boxCenter.x - g.soul.size.x / 2, boxCenter.y - g.soul.size.y / 2⟩
  { g with
    mode := GameMode.SoulFlyIn
    soulFlyT := 0
    soulFlyStart := soulFlyStart
    soulFlyTarget := soulFlyTarget
    soul := { g.soul with pos := soulFlyStart, invuln := false, invulnTimer := 0 }
    bullets := []
    spawnTimer := 0
    battleTime := 0 }

/-- The input vector built from the four movement keys (before normalisation). -/
def rawMove (inp : Input K) : Vector2f K :=
  let move : Vector2f K := ⟨0, 0⟩
  let move := if inp.keyW then { move with y := move.y - 1 } else move
  let move := if inp.keyS then { move with y := move.y + 1 } else move
  let move := if inp.keyA then { move with x := move.x - 1 } else move
  let move := if inp.keyD then { move with x := move.x + 1 } else move
  move

/-- The normalisation `if (move.x != 0 || move.y != 0) move /= sqrt(x*x + y*y)`. -/
def normalizeMove (sqrtf : K → K) (move : Vector2f K) : Vector2f K :=
  if move.x ≠ 0 ∨ move.y ≠ 0 then
    let len := sqrtf (move.x * move.x + move.y * move.y)
    move / len
  else move

/-! ## The update of each mode -/

/-- The facing direction chosen "for animation" in the `Overworld` branch: updated
only while moving, horizontal when `|move.x| > |move.y|`. -/
def walkDir (move : Vector2f K) (dir : Dir) : Dir :=
  if move.x ≠ 0 ∨ move.y ≠ 0 then
    if |move.x| > |move.y| then (if move.x > 0 then Dir.Right else Dir.Left)
    else (if move.y > 0 then Dir.Down else Dir.Up)
  else dir

/-- The "movement + collision" step of the `Overworld` branch: the candidate position
is taken only if its hitbox intersects no wall. -/
def stepPlayer (move : Vector2f K) (dt : K) (p : PlayerOverworld K) : PlayerOverworld K :=
  let next : Vector2f K := p.pos + move * p.speed * dt
  let pRect : FloatRect K := ⟨⟨next.x, next.y⟩, ⟨p.size.x, p.size.y⟩⟩
  let blocked : Bool := (walls : List (FloatRect K)).any (fun w => intersects pRect w)
  if !blocked then { p with pos := next } else p

/-- The "animate frames" step of the `Overworld` branch, together with the writes of
`walk.moving` and `walk.dir` that precede it. -/
def animateWalk (move : Vector2f K) (dt : K) (walk : WalkAnim K) : WalkAnim K :=
  let moving : Bool := decide (move.x ≠ 0 ∨ move.y ≠ 0)
  let dir := walkDir move walk.dir
  if moving then
    let timer := walk.timer + dt
    if timer ≥ walk.frameTime then
      { dir := dir, moving := moving, timer := 0, frame := Int.tmod (walk.frame + 1) 4 }
    else
      { dir := dir, moving := moving, timer := timer, frame := walk.frame }
  else
    { dir := dir, moving := moving, timer := 0, frame := 0 }

/-- The encounter check that ends the `Overworld` branch; `justPressed` is reached
only when the trigger is active and the player's hitbox intersects it. -/
def encounterCheck (inp : Input K) (g : Game K) : Game K :=
  if g.encounter.active then
    let current : FloatRect K := ⟨⟨g.p.pos.x, g.p.pos.y⟩, ⟨g.p.size.x, g.p.size.y⟩⟩
    if intersects current g.encounter.trigger then
      let jp := justPressed inp.keyE g.prevE
      if jp.1 then { g with prevE := jp.2, mode := GameMode.EncounterMenu, menuIndex := 0 }
      else { g with prevE := jp.2 }
    else g
  else g

/-- The `Overworld` branch of the update section. -/
def updateOverworld (sqrtf : K → K) (dt : K) (inp : Input K) (g : Game K) : Game K :=
  let move := normalizeMove sqrtf (rawMove inp)
  encounterCheck inp { g with p := stepPlayer move dt g.p, walk := animateWalk move dt g.walk }

/-- The value of `menuIndex` when the `Enter` check of the `EncounterMenu` branch is
reached: the `W` and `S` edge presses of the tick have been applied. -/
def menuAfterKeys (inp : Input K) (g : Game K) : Int :=
  let menuIndex := g.menuIndex
  let menuIndex :=
    if (justPressed inp.keyW g.prevW).1 then Int.tmod (menuIndex - 1 + 2) 2 else menuIndex
  let menuIndex :=
    if (justPressed inp.keyS g.prevS).1 then Int.tmod (menuIndex + 1) 2 else menuIndex
  menuIndex

/-- The `EncounterMenu` branch of the update section. -/
def updateEncounterMenu (inp : Input K) (g : Game K) : Game K :=
  let menuIndex := menuAfterKeys inp g
  let prevW := (justPressed inp.keyW g.prevW).2
  let prevS := (justPressed inp.keyS g.prevS).2
  let jpEsc := justPressed inp.keyEscape g.prevEsc
  let mode := if jpEsc.1 then GameMode.Overworld else g.mode
  let jpEnter := justPressed inp.keyEnter g.prevEnter
  let g := { g with
    mode := mode, menuIndex := menuIndex
    prevW := prevW, prevS := prevS, prevEsc := jpEsc.2, prevEnter := jpEnter.2 }
  if jpEnter.1 then
    if menuIndex = 0 then
      { g with mode := GameMode.Overworld }
    else
      startSoulFlyIn { g with
        enemyHp := enemyMaxHp
        battleStage := 1
        enemyHpShown := (enemyMaxHp : K)
        enemyHpFrom := (enemyMaxHp : K)
        enemyHpTo := (enemyMaxHp : K)
        hpAnimT := 0
        soul := { g.soul with hp := g.soul.maxHp, invuln := false, invulnTimer := 0 } }
  else g

/-- The `SoulFlyIn` branch of the update section. -/
def updateSoulFlyIn (dt : K) (g : Game K) : Game K :=
  let soulFlyT := g.soulFlyT + dt
  let t01 : K := if (soulFlyDur : K) > 0 then soulFlyT / soulFlyDur else 1
  let t01 := clampf t01 0 1
  -- smoothstep easing
  let eased := t01 * t01 * (3 - 2 * t01)
  let pos := g.soulFlyStart + (g.soulFlyTarget - g.soulFlyStart) * eased
  if t01 ≥ 1 then
    startBattlePhase { g with soulFlyT := soulFlyT, soul := { g.soul with pos := g.soulFlyTarget } }
  else
    { g with soulFlyT := soulFlyT, soul := { g.soul with pos := pos } }

/-- The soul movement of the `Battle` branch: move by the normalised input, then clamp
into the battle box. -/
def moveSoul (sqrtf : K → K) (dt : K) (inp : Input K) (soul : Soul K) : Soul K :=
  let move := normalizeMove sqrtf (rawMove inp)
  let pos := soul.pos + move * soul.speed * dt
  let pos := { pos with
    x := clampf pos.x (leftOf battleBox) (rightOf battleBox - soul.size.x) }
  let pos := { pos with
    y := clampf pos.y (topOf battleBox) (bottomOf battleBox - soul.size.y) }
  { soul with pos := pos }

/-- The C++ conversion `(int)v` of a float: truncation towards zero. -/
def toInt (v : K) : Int := if 0 ≤ v then ⌊v⌋ else ⌈v⌉

/-- One bullet as built in the spawner: `base` and `range` are the stage constants of
the downward speed, `rx` and `rv` the two results of `rand()`. -/
def spawnBullet (base : K) (range : Int) (rx rv : Nat) : Bullet K :=
  let minX : K := leftOf battleBox + 12
  let maxX : K := rightOf battleBox - 12
  let x : K := minX + ((Int.tmod (rx : Int) (toInt (maxX - minX + 1)) : Int) : K)
  { pos := ⟨x, topOf battleBox - 10⟩
    vel := ⟨0, base + ((Int.tmod (rv : Int) range : Int) : K)⟩
    r := 6
    alive := true }

/-- The stage-dependent spawner (after `spawnTimer += dt`): the new timer and the
collection with the spawned bullets pushed at the back. -/
def spawnStep (battleStage : Int) (rand : Nat → Nat) (spawnTimer : K)
    (bullets : List (Bullet K)) : K × List (Bullet K) :=
  if battleStage = 1 then
    if spawnTimer ≥ 1 / 4 then
      (0, bullets ++ [spawnBullet 260 140 (rand 0) (rand 1)])
    else (spawnTimer, bullets)
  else
    if spawnTimer ≥ 9 / 50 then
      (0, (bullets ++ [spawnBullet 320 180 (rand 0) (rand 1)])
            ++ [spawnBullet 320 180 (rand 2) (rand 3)])
    else (spawnTimer, bullets)

/-- The bullet update loop followed by `erase(remove_if(... !b.alive ...))`. -/
def integrateBullets (dt : K) (bullets : List (Bullet K)) : List (Bullet K) :=
  (bullets.map (fun b =>
      let b := b.update dt
      if b.pos.y > bottomOf battleBox + 40 then { b with alive := false } else b)).filter
    (fun b => b.alive)

/-- The invulnerability timer step of the `Battle` branch. -/
def invulnDecay (dt : K) (soul : Soul K) : Soul K :=
  if soul.invuln then
    let invulnTimer := soul.invulnTimer - dt
    if invulnTimer ≤ 0 then { soul with invuln := false, invulnTimer := 0 }
    else { soul with invulnTimer := invulnTimer }
  else soul

/-- The square around a bullet used for the hit test. -/
def bulletRect (b : Bullet K) : FloatRect K :=
  ⟨⟨b.pos.x - b.r, b.pos.y - b.r⟩, ⟨b.r * 2, b.r * 2⟩⟩

/-- The loop over the bullets of the collision check, with its `break`. -/
def hitLoop (sr : FloatRect K) (soul : Soul K) : List (Bullet K) → Soul K
  | [] => soul
  | b :: rest =>
    if intersects sr (bulletRect b) then
      { soul with hp := soul.hp - 5, invuln := true, invulnTimer := 3 / 5 }
    else hitLoop sr soul rest

/-- The soul-bullet collision check of the `Battle` branch. -/
def collisionCheck (soul : Soul K) (bullets : List (Bullet K)) : Soul K :=
  if !soul.invuln then
    hitLoop ⟨⟨soul.pos.x, soul.pos.y⟩, soul.size⟩ soul bullets
  else soul

/-- The `Battle` branch of the update section. -/
def updateBattle (sqrtf : K → K) (dt : K) (inp : Input K) (g : Game K) : Game K :=
  let battleTime := g.battleTime + dt
  let soul := moveSoul sqrtf dt inp g.soul
  let spawnTimer := g.spawnTimer + dt
  let sp := spawnStep g.battleStage inp.rand spawnTimer g.bullets
  let spawnTimer := sp.1
  let bullets := integrateBullets dt sp.2
  let soul := invulnDecay dt soul
  let soul := collisionCheck soul bullets
  let mode := if battleTime ≥ 12 then GameMode.AttackTurn else g.mode
  let bullets := if battleTime ≥ 12 then [] else bullets
  let mode := if soul.hp ≤ 0 then GameMode.GameOver else mode
  { g with
    mode := mode, battleTime := battleTime, soul := soul
    spawnTimer := spawnTimer, bullets := bullets }

/-- The `AttackTurn` branch of the update section. -/
def updateAttackTurn (inp : Input K) (g : Game K) : Game K :=
  let jpEnter := justPressed inp.keyEnter g.prevEnter
  let jpEsc := justPressed inp.keyEscape g.prevEsc
  let g := { g with prevEnter := jpEnter.2, prevEsc := jpEsc.2 }
  let g :=
    if jpEnter.1 then
      let lastDamage : Int := 70
      let enemyHp := g.enemyHp - lastDamage
      let enemyHp := max 0 enemyHp
      if enemyHp ≤ 0 then
        { g with
          lastDamage := lastDamage, enemyHp := enemyHp
          enemyHpFrom := g.enemyHpShown, enemyHpTo := (enemyHp : K), hpAnimT := 0
          mode := GameMode.EnemyDefeated, defeatTimer := 0, encounter := ⟨false⟩ }
      else
        { g with
          lastDamage := lastDamage, enemyHp := enemyHp
          enemyHpFrom := g.enemyHpShown, enemyHpTo := (enemyHp : K), hpAnimT := 0
          mode := GameMode.DamageMsg, msgTimer := 0, playedHpDownSfx := false }
    else g
  if jpEsc.1 then { g with mode := GameMode.Overworld } else g

/-- The exit of `DamageMsg`: the body of `if (tt >= 1.f || justPressed(Enter))`. -/
def leaveDamageMsg (g : Game K) : Game K :=
  startBattlePhase { g with
    enemyHpShown := g.enemyHpTo
    battleStage := 2
    soul := { g.soul with pos := boxCentre g.soul } }

/-- The `DamageMsg` branch of the update section. -/
def updateDamageMsg (dt : K) (inp : Input K) (g : Game K) : Game K :=
  let playedHpDownSfx := if !g.playedHpDownSfx then true else g.playedHpDownSfx
  let msgTimer := g.msgTimer + dt
  let hpAnimT := g.hpAnimT + dt
  let tt : K := if (hpAnimDur : K) > 0 then hpAnimT / hpAnimDur else 1
  let tt := clampf tt 0 1
  let eased := tt * tt * (3 - 2 * tt)
  let enemyHpShown := g.enemyHpFrom + (g.enemyHpTo - g.enemyHpFrom) * eased
  let g := { g with
    playedHpDownSfx := playedHpDownSfx, msgTimer := msgTimer
    hpAnimT := hpAnimT, enemyHpShown := enemyHpShown }
  if tt ≥ 1 then leaveDamageMsg g
  else
    let jpEnter := justPressed inp.keyEnter g.prevEnter
    if jpEnter.1 then leaveDamageMsg { g with prevEnter := jpEnter.2 }
    else { g with prevEnter := jpEnter.2 }

/-- The `EnemyDefeated` branch of the update section. -/
def updateEnemyDefeated (dt : K) (inp : Input K) (g : Game K) : Game K :=
  let defeatTimer := g.defeatTimer + dt
  if defeatTimer ≥ 3 / 2 then { g with defeatTimer := defeatTimer, mode := GameMode.Victory }
  else
    let jpEnter := justPressed inp.keyEnter g.prevEnter
    if jpEnter.1 then
      { g with defeatTimer := defeatTimer, prevEnter := jpEnter.2, mode := GameMode.Victory }
    else { g with defeatTimer := defeatTimer, prevEnter := jpEnter.2 }

/-- The `GameOver` branch of the update section. -/
def updateGameOver (inp : Input K) (g : Game K) : Game K :=
  if inp.keyR then
    { g with mode := GameMode.Overworld, encounter := ⟨true⟩, p := { g.p with pos := ⟨120, 260⟩ } }
  else g

/-- The `Victory` branch of the update section. -/
def updateVictory (inp : Input K) (g : Game K) : Game K :=
  let jpEnter := justPressed inp.keyEnter g.prevEnter
  if jpEnter.1 then { g with prevEnter := jpEnter.2, mode := GameMode.Overworld }
  else { g with prevEnter := jpEnter.2 }

/-- The time step of a tick: `dt = min(clock.restart().asSeconds(), 0.05f)`. -/
def tickDt (inp : Input K) : K := min inp.elapsed (1 / 20)

/-- One iteration of the frame loop: cap `dt`, then run the update of the current mode. -/
def tick (sqrtf : K → K) (g : Game K) (inp : Input K) : Game K :=
  let dt := tickDt inp
  match g.mode with
  | GameMode.Overworld => updateOverworld sqrtf dt inp g
  | GameMode.EncounterMenu => updateEncounterMenu inp g
  | GameMode.SoulFlyIn => updateSoulFlyIn dt g
  | GameMode.Battle => updateBattle sqrtf dt inp g
  | GameMode.AttackTurn => updateAttackTurn inp g
  | GameMode.DamageMsg => updateDamageMsg dt inp g
  | GameMode.EnemyDefeated => updateEnemyDefeated dt inp g
  | GameMode.GameOver => updateGameOver inp g
  | GameMode.Victory => updateVictory inp g

/-- The frame loop run over a finite sequence of inputs. -/
def run (sqrtf : K → K) (g : Game K) (inps : List (Input K)) : Game K :=
  inps.foldl (tick sqrtf) g

/-- The states the frame loop can be in after some number of ticks from `init`. -/
inductive Reachable (sqrtf : K → K) : Game K → Prop where
  | start : Reachable sqrtf init
  | step (g : Game K) (inp : Input K) : Reachable sqrtf g → Reachable sqrtf (tick sqrtf g inp)

/-! ## Predicates and sample sessions used in the statements -/

/-- The modes in which an encounter is being fought. -/
def Fighting (m : GameMode) : Prop :=
  m = GameMode.SoulFlyIn ∨ m = GameMode.Battle ∨ m = GameMode.AttackTurn ∨ m = GameMode.DamageMsg

/-- Invariant of the frame loop behind the bounds of the soul's hp: hp is a multiple of
5 between 0 and `maxHp`, and positive while an encounter is being fought. -/
def HpInv (g : Game K) : Prop :=
  0 ≤ g.soul.hp ∧ g.soul.hp ≤ g.soul.maxHp ∧ g.soul.hp % 5 = 0 ∧
    (Fighting g.mode → 0 < g.soul.hp)

/-- Invariant of the frame loop behind "no re-fight": once the trigger is inactive the
mode is one of `Overworld`, `EnemyDefeated`, `Victory`. -/
def DefeatedInv (g : Game K) : Prop :=
  g.encounter.active = false →
    g.mode = GameMode.Overworld ∨ g.mode = GameMode.EnemyDefeated ∨ g.mode = GameMode.Victory

/-- The player's hitbox rectangle at `p.pos` (the rectangle `current` of the source). -/
def playerRect (p : PlayerOverworld K) : FloatRect K :=
  ⟨⟨p.pos.x, p.pos.y⟩, ⟨p.size.x, p.size.y⟩⟩

/-- The soul's hitbox rectangle (the rectangle `sr` of the collision check). -/
def soulRect (soul : Soul K) : FloatRect K :=
  ⟨⟨soul.pos.x, soul.pos.y⟩, soul.size⟩

/-- The soul as the collision check of a `Battle` tick finds it: moved, clamped, and
with the invulnerability timer stepped. -/
def soulAtCheck (sqrtf : K → K) (inp : Input K) (g : Game K) : Soul K :=
  invulnDecay (tickDt inp) (moveSoul sqrtf (tickDt inp) inp g.soul)

/-- The live bullets as the collision check of a `Battle` tick finds them: spawned,
advanced and filtered. -/
def bulletsAtCheck (inp : Input K) (g : Game K) : List (Bullet K) :=
  integrateBullets (tickDt inp)
    (spawnStep g.battleStage inp.rand (g.spawnTimer + tickDt inp) g.bullets).2

/-- Every tick of the run of `inps` from `g` starts in mode `Battle`. -/
def battleTicks (sqrtf : K → K) : Game K → List (Input K) → Bool
  | _, [] => true
  | g, inp :: rest =>
    decide (g.mode = GameMode.Battle) && battleTicks sqrtf (tick sqrtf g inp) rest

/-- A rational square root by four Newton steps from `(v + 1) / 2` (exact at `1`). -/
def sqrtNewton (v : ℚ) : ℚ := (fun x => (x + v / x) / 2)^[4] ((v + 1) / 2)

/-- The tick input with no key down, `1/20` s elapsed and every `rand()` returning `r`. -/
def idle (r : Nat) : Input ℚ :=
  ⟨false, false, false, false, false, false, false, false, 1 / 20, fun _ => r⟩

/-- Inputs from start-up into the first battle phase: walk right to the trigger (45
ticks), press `E`, press `S` to select "attack", press `Enter`, then 30 ticks of fly-in. -/
def intoBattle : List (Input ℚ) :=
  List.replicate 45 { idle 0 with keyD := true }
    ++ [{ idle 0 with keyE := true }, { idle 0 with keyS := true },
        { idle 0 with keyEnter := true }]
    ++ List.replicate 30 (idle 0)

/-- Inputs from start-up to the first `AttackTurn` with `Enter` released: the first
battle phase is sat out (every bullet spawns at the left margin, `rand() = 0`), and one
more tick passes with no key down. -/
def toFirstAttack : List (Input ℚ) :=
  intoBattle ++ List.replicate 240 (idle 0) ++ [idle 0]

/-- Inputs from start-up to the second `AttackTurn` with `Enter` released: the first
attack is confirmed, the damage message is skipped with `Enter`, and the second battle
phase is sat out. -/
def toSecondAttack : List (Input ℚ) :=
  toFirstAttack
    ++ [{ idle 0 with keyEnter := true }]
    ++ [idle 0, { idle 0 with keyEnter := true }]
    ++ List.replicate 240 (idle 0)
    ++ [idle 0]

/-- A won session: the second attack is confirmed as well. -/
def winSession : List (Input ℚ) :=
  toSecondAttack ++ [{ idle 0 with keyEnter := true }]

/-- The state of the sample sessions in the menu with "attack" selected (after the
walk, `E` and `S`). -/
def atMenuAttack : Game ℚ := run sqrtNewton init (intoBattle.take 47)

/-- The state of the won session at its first `AttackTurn`, `Enter` released. -/
def atFirstAttack : Game ℚ := run sqrtNewton init toFirstAttack

/-- The state of the won session at its second `AttackTurn`, `Enter` released. -/
def atSecondAttack : Game ℚ := run sqrtNewton init toSecondAttack

/-- A lost session: every bullet spawns above the resting soul (`rand() = 178`, so
`x = 450`) and the soul does not move; the fourth hit comes on the 57th battle tick. -/
def loseSession : List (Input ℚ) :=
  intoBattle ++ List.replicate 57 (idle 178)

/-- A battle state with two bullets that both reach the resting soul on the next tick. -/
def twoBullets : Game ℚ :=
  { (init : Game ℚ) with
    mode := GameMode.Battle
    bullets := [⟨⟨450, 255⟩, ⟨0, 300⟩, 6, true⟩, ⟨⟨445, 250⟩, ⟨0, 300⟩, 6, true⟩] }

/-- The state of the lost session just before its first hit (after 11 battle ticks). -/
def firstHit : Game ℚ :=
  run sqrtNewton init (intoBattle ++ List.replicate 11 (idle 178))

/-- The state of the won session before the last tick of its first battle phase
(after 239 battle ticks). -/
def lastBattleTick : Game ℚ :=
  run sqrtNewton init (intoBattle ++ List.replicate 239 (idle 0))

/-! ## Definitions for the fly-in -/

/-- The normalised fly-in time of the `SoulFlyIn` branch for an elapsed fly time `T`:
`t01 = clampf(soulFlyDur > 0 ? T / soulFlyDur : 1, 0, 1)`. -/
def flyT01 (T : K) : K :=
  clampf (if (soulFlyDur : K) > 0 then T / soulFlyDur else 1) 0 1

/-- The easing expression of the source, `t01 * t01 * (3 - 2 * t01)`. -/
def smoothstep (t01 : K) : K := t01 * t01 * (3 - 2 * t01)

/-- The fly-in start that `startSoulFlyIn` derives from the player's position: the
player's centre minus half the soul size. -/
def flyStart (p : PlayerOverworld K) (soul : Soul K) : Vector2f K :=
  ⟨p.pos.x + p.size.x / 2 - soul.size.x / 2, p.pos.y + p.size.y / 2 - soul.size.y / 2⟩

/-- Invariant of the frame loop during the fly-in: the start and target are the ones
`startSoulFlyIn` computed, and the stats are the freshly reset ones. -/
def FlyInv (g : Game K) : Prop :=
  g.mode = GameMode.SoulFlyIn →
    g.soulFlyStart = flyStart g.p g.soul ∧ g.soulFlyTarget = boxCentre g.soul ∧
    g.enemyHp = enemyMaxHp ∧ g.soul.hp = g.soul.maxHp

/-- The state of the sample sessions before the last tick of the fly-in (after 29 of
its 30 ticks). -/
def lastFlyTick : Game ℚ := run sqrtNewton init (intoBattle.take 77)

/-! ## Definitions for the movement claims -/

/-- The candidate position `next = p.pos + move * p.speed * dt` of the `Overworld`
movement step. -/
def candidate (move : Vector2f K) (dt : K) (p : PlayerOverworld K) : Vector2f K :=
  p.pos + move * p.speed * dt

/-- The tick input with `W` and `D` held (a diagonal move) and `1/20` s elapsed. -/
def holdWD : Input K :=
  ⟨true, false, false, true, false, false, false, false, 1 / 20, fun _ => 0⟩

/-! ## Definitions for the bullet claims -/

/-- Invariant of the frame loop on the live collection: every bullet in it has
`alive = true`. -/
def AliveInv (g : Game K) : Prop := ∀ b ∈ g.bullets, b.alive = true

/-- The state after 19 ticks of a battle phase whose spawner drew 110 each time: three
bullets are live, spawned on the 5th, 10th and 15th tick at x = 382 with downward speed
370; the 20th tick spawns a fourth and takes the first below 420. -/
def beforeSweep : Game ℚ :=
  run sqrtNewton init (intoBattle ++ List.replicate 19 (idle 110))

/-- A stage-1 battle state whose spawn timer is one tick short of the 0.25 s interval,
with one bullet about to leave the box. -/
def spawnReady : Game ℚ :=
  { (init : Game ℚ) with
    mode := GameMode.Battle
    spawnTimer := 1 / 5
    bullets := [⟨⟨300, 410⟩, ⟨0, 300⟩, 6, true⟩, ⟨⟨400, 200⟩, ⟨0, 300⟩, 6, true⟩] }

/-! ## Definitions for the damage message -/

/-- The keys that the update section reads through `justPressed`. -/
inductive EdgeKey where
  | E
  | Enter
  | Escape
  | W
  | S
  deriving DecidableEq, Repr

/-- The sampled state of an edge-detected key on a tick. -/
def EdgeKey.down (k : EdgeKey) (inp : Input K) : Bool :=
  match k with
  | EdgeKey.E => inp.keyE
  | EdgeKey.Enter => inp.keyEnter
  | EdgeKey.Escape => inp.keyEscape
  | EdgeKey.W => inp.keyW
  | EdgeKey.S => inp.keyS

/-- The stored previous state of an edge-detected key (`prevE`, `prevEnter`, ...). -/
def EdgeKey.prev (k : EdgeKey) (g : Game K) : Bool :=
  match k with
  | EdgeKey.E => g.prevE
  | EdgeKey.Enter => g.prevEnter
  | EdgeKey.Escape => g.prevEsc
  | EdgeKey.W => g.prevW
  | EdgeKey.S => g.prevS

/-- Whether the tick from `g` on `inp` reaches a call of `justPressed` for the key, read
off the call sites of the update section: `E` in `Overworld` behind
`encounter.active` and `intersects(current, trigger) &&`; `W`, `S`, `Escape`, `Enter` in
`EncounterMenu`; `Enter`, `Escape` in `AttackTurn`; `Enter` in `DamageMsg` behind
`tt >= 1.f ||`, in `EnemyDefeated` behind `defeatTimer >= 1.5f ||`, and in `Victory`. -/
def polled (sqrtf : K → K) (k : EdgeKey) (g : Game K) (inp : Input K) : Bool :=
  match g.mode, k with
  | GameMode.Overworld, EdgeKey.E =>
    g.encounter.active &&
      intersects
        (playerRect (stepPlayer (normalizeMove sqrtf (rawMove inp)) (tickDt inp) g.p))
        g.encounter.trigger
  | GameMode.EncounterMenu, EdgeKey.W => true
  | GameMode.EncounterMenu, EdgeKey.S => true
  | GameMode.EncounterMenu, EdgeKey.Escape => true
  | GameMode.EncounterMenu, EdgeKey.Enter => true
  | GameMode.AttackTurn, EdgeKey.Enter => true
  | GameMode.AttackTurn, EdgeKey.Escape => true
  | GameMode.DamageMsg, EdgeKey.Enter =>
    !decide (clampf (if (hpAnimDur : K) > 0 then (g.hpAnimT + tickDt inp) / hpAnimDur else 1) 0 1
      ≥ 1)
  | GameMode.EnemyDefeated, EdgeKey.Enter => !decide (g.defeatTimer + tickDt inp ≥ 3 / 2)
  | GameMode.Victory, EdgeKey.Enter => true
  | _, _ => false

/-- Whether a call of `justPressed` for the key returns true during the tick (a
"just-pressed event"): the call is reached, the key is down and the stored previous
state is false. -/
def fires (sqrtf : K → K) (k : EdgeKey) (g : Game K) (inp : Input K) : Bool :=
  polled sqrtf k g inp && (justPressed (k.down inp) (k.prev g)).1

/-- The number of just-pressed events of the key over a run of ticks. -/
def fireCount (sqrtf : K → K) (k : EdgeKey) : Game K → List (Input K) → Nat
  | _, [] => 0
  | g, inp :: rest =>
    (if fires sqrtf k g inp then 1 else 0) + fireCount sqrtf k (tick sqrtf g inp) rest

/-- A press of `Enter` that starts in the overworld: after one tick with no key down,
`Enter` is held for 47 ticks, during which the player walks to the trigger (45 ticks),
presses `E` (menu opens) and stays one tick in the menu. -/
def heldEnter : List (Input ℚ) :=
  List.replicate 45 { idle 0 with keyD := true, keyEnter := true }
    ++ [{ idle 0 with keyE := true, keyEnter := true }, { idle 0 with keyEnter := true }]

end Model

/-! # Theorems -/

section Frame

variable {K : Type} [LinearOrderedField K]

/-! ## Effect of the battle steps on the soul's hp -/

theorem hitLoop_hp (sr : FloatRect K) (soul : Soul K) (bs : List (Bullet K)) :
    (hitLoop sr soul bs).hp = soul.hp ∨ (hitLoop sr soul bs).hp = soul.hp - 5 := by
  induction bs with
  | nil => simp [hitLoop]
  | cons b rest ih =>
    unfold hitLoop
    split_ifs
    · right; rfl
    · exact ih

theorem collisionCheck_hp (soul : Soul K) (bs : List (Bullet K)) :
    (collisionCheck soul bs).hp = soul.hp ∨ (collisionCheck soul bs).hp = soul.hp - 5 := by
  unfold collisionCheck
  split_ifs
  · exact hitLoop_hp _ _ _
  · left; rfl

theorem invulnDecay_hp (dt : K) (soul : Soul K) : (invulnDecay dt soul).hp = soul.hp := by
  simp only [invulnDecay]
  split_ifs <;> rfl

theorem moveSoul_hp (sqrtf : K → K) (dt : K) (inp : Input K) (soul : Soul K) :
    (moveSoul sqrtf dt inp soul).hp = soul.hp := rfl

/-! ## The rectangle test -/

/-- For rectangles of positive width and height, `intersects` is the strict overlap of
the two spans on each axis. -/
theorem intersects_iff (a b : FloatRect K) (ha : 0 < a.size.x ∧ 0 < a.size.y)
    (hb : 0 < b.size.x ∧ 0 < b.size.y) :
    intersects a b = true ↔
      (a.position.x < b.position.x + b.size.x ∧ b.position.x < a.position.x + a.size.x) ∧
      (a.position.y < b.position.y + b.size.y ∧ b.position.y < a.position.y + a.size.y) := by
  obtain ⟨ha1, ha2⟩ := ha
  obtain ⟨hb1, hb2⟩ := hb
  simp only [intersects, decide_eq_true_eq]
  rw [min_eq_left (by linarith : a.position.x ≤ a.position.x + a.size.x),
    max_eq_right (by linarith : a.position.x ≤ a.position.x + a.size.x),
    min_eq_left (by linarith : a.position.y ≤ a.position.y + a.size.y),
    max_eq_right (by linarith : a.position.y ≤ a.position.y + a.size.y),
    min_eq_left (by linarith : b.position.x ≤ b.position.x + b.size.x),
    max_eq_right (by linarith : b.position.x ≤ b.position.x + b.size.x),
    min_eq_left (by linarith : b.position.y ≤ b.position.y + b.size.y),
    max_eq_right (by linarith : b.position.y ≤ b.position.y + b.size.y)]
  simp only [max_lt_iff, lt_min_iff]
  constructor
  · rintro ⟨⟨⟨_, _⟩, ⟨_, _⟩⟩, ⟨⟨_, _⟩, ⟨_, _⟩⟩⟩
    refine ⟨⟨?_, ?_⟩, ⟨?_, ?_⟩⟩ <;> assumption
  · rintro ⟨⟨_, _⟩, ⟨_, _⟩⟩
    refine ⟨⟨⟨?_, ?_⟩, ⟨?_, ?_⟩⟩, ⟨⟨?_, ?_⟩, ⟨?_, ?_⟩⟩⟩ <;> first | assumption | linarith
/-! ## The invariants at start-up -/

theorem hpInv_init : HpInv (init : Game K) := by
  simp [HpInv, init, Fighting, Soul.maxHp]

theorem defeatedInv_init : DefeatedInv (init : Game K) := by
  simp [DefeatedInv, init]

/-- The start position is clear of the five walls. -/
theorem init_clear :
    ((walls : List (FloatRect K)).any fun w => intersects (playerRect (init : Game K).p) w)
      = false := by
  simp [walls, intersects, playerRect, init, PlayerOverworld.size, W, H]
  norm_num

/-- The movement step of the overworld never moves the hitbox into a wall. -/
theorem stepPlayer_clear (move : Vector2f K) (dt : K) (p : PlayerOverworld K)
    (h : ((walls : List (FloatRect K)).any fun w => intersects (playerRect p) w) = false) :
    ((walls : List (FloatRect K)).any fun w =>
      intersects (playerRect (stepPlayer move dt p)) w) = false := by
  simp only [stepPlayer]
  split_ifs with hb
  · simpa [playerRect, PlayerOverworld.size] using hb
  · exact h

/-- What the `Enter` handler of `AttackTurn` does on a tick with `Enter` down and not
down at the previous poll, whatever else is pressed. -/
theorem attackTurn_enter (inp : Input K) (g : Game K) (hE : inp.keyEnter = true)
    (hp : g.prevEnter = false) :
    (updateAttackTurn inp g).enemyHp = max 0 (g.enemyHp - 70) ∧
    (g.enemyHp ≤ 70 → (updateAttackTurn inp g).encounter.active = false) ∧
    (inp.keyEscape = true → g.prevEsc = false →
      (updateAttackTurn inp g).mode = GameMode.Overworld) := by
  refine ⟨?_, ?_, ?_⟩
  · simp only [updateAttackTurn, justPressed, hE, hp]
    split_ifs <;> simp_all
  · intro h70
    have : max 0 (g.enemyHp - 70) ≤ 0 := by omega
    simp only [updateAttackTurn, justPressed, hE, hp]
    split_ifs <;> simp_all
  · intro hEsc hpe
    simp only [updateAttackTurn, justPressed, hEsc, hpe]
    split_ifs <;> simp_all

variable [FloorRing K]

theorem updateBattle_hp (sqrtf : K → K) (dt : K) (inp : Input K) (g : Game K) :
    (updateBattle sqrtf dt inp g).soul.hp = g.soul.hp ∨
    (updateBattle sqrtf dt inp g).soul.hp = g.soul.hp - 5 := by
  have h := collisionCheck_hp (invulnDecay dt (moveSoul sqrtf dt inp g.soul))
    (integrateBullets dt (spawnStep g.battleStage inp.rand (g.spawnTimer + dt) g.bullets).2)
  rw [invulnDecay_hp, moveSoul_hp] at h
  exact h

theorem updateBattle_mode (sqrtf : K → K) (dt : K) (inp : Input K) (g : Game K) :
    (updateBattle sqrtf dt inp g).mode =
      if (updateBattle sqrtf dt inp g).soul.hp ≤ 0 then GameMode.GameOver
      else if g.battleTime + dt ≥ 12 then GameMode.AttackTurn else g.mode := rfl

/-! ## The tick in a given mode -/

theorem tick_battle (sqrtf : K → K) (g : Game K) (inp : Input K)
    (hm : g.mode = GameMode.Battle) :
    tick sqrtf g inp = updateBattle sqrtf (tickDt inp) inp g := by
  simp only [tick, hm]

theorem tick_attackTurn (sqrtf : K → K) (g : Game K) (inp : Input K)
    (hm : g.mode = GameMode.AttackTurn) : tick sqrtf g inp = updateAttackTurn inp g := by
  simp only [tick, hm]

theorem tick_encounterMenu (sqrtf : K → K) (g : Game K) (inp : Input K)
    (hm : g.mode = GameMode.EncounterMenu) : tick sqrtf g inp = updateEncounterMenu inp g := by
  simp only [tick, hm]

/-! ## Runs and reachability -/

theorem run_nil (sqrtf : K → K) (g : Game K) : run sqrtf g [] = g := rfl

theorem run_cons (sqrtf : K → K) (g : Game K) (x : Input K) (xs : List (Input K)) :
    run sqrtf g (x :: xs) = run sqrtf (tick sqrtf g x) xs := rfl

theorem run_append (sqrtf : K → K) (g : Game K) (xs ys : List (Input K)) :
    run sqrtf g (xs ++ ys) = run sqrtf (run sqrtf g xs) ys := by
  simp [run, List.foldl_append]

theorem reachable_run (sqrtf : K → K) (g : Game K) (h : Reachable sqrtf g)
    (inps : List (Input K)) : Reachable sqrtf (run sqrtf g inps) := by
  induction inps generalizing g with
  | nil => exact h
  | cons inp rest ih => exact ih _ (Reachable.step g inp h)

theorem reachable_session (sqrtf : K → K) (inps : List (Input K)) :
    Reachable sqrtf (run sqrtf init inps) :=
  reachable_run sqrtf init Reachable.start inps

/-! ## Preservation of the invariants by one tick -/

theorem hpInv_tick (sqrtf : K → K) (g : Game K) (inp : Input K) (h : HpInv g) :
    HpInv (tick sqrtf g inp) := by
  obtain ⟨h0, h1, h5, hf⟩ := h
  unfold tick
  cases hm : g.mode <;> simp only []
  · -- Overworld
    simp only [updateOverworld, encounterCheck]
    split_ifs <;> simp_all [HpInv, Fighting]
  · -- EncounterMenu
    simp only [updateEncounterMenu]
    split_ifs <;> simp_all [HpInv, Fighting, startSoulFlyIn, Soul.maxHp]
  · -- SoulFlyIn
    simp only [updateSoulFlyIn]
    split_ifs <;> simp_all [HpInv, Fighting, startBattlePhase, Soul.maxHp]
  · -- Battle
    have hpos : 0 < g.soul.hp := hf (by simp [Fighting, hm])
    have hhp := updateBattle_hp sqrtf (tickDt inp) inp g
    have hmode := updateBattle_mode sqrtf (tickDt inp) inp g
    simp only [Soul.maxHp] at h1
    refine ⟨by omega, by simp only [Soul.maxHp]; omega, by omega, ?_⟩
    intro hF
    rw [hmode] at hF
    split_ifs at hF with h1 h2
    · simp [Fighting] at hF
    · omega
    · omega
  · -- AttackTurn
    have hpos : 0 < g.soul.hp := hf (by simp [Fighting, hm])
    simp only [updateAttackTurn]
    split_ifs <;> simp_all [HpInv, Fighting, Soul.maxHp]
  · -- DamageMsg
    have hpos : 0 < g.soul.hp := hf (by simp [Fighting, hm])
    simp only [updateDamageMsg, leaveDamageMsg]
    split_ifs <;> simp_all [HpInv, Fighting, Soul.maxHp, startBattlePhase]
  · -- EnemyDefeated
    simp only [updateEnemyDefeated]
    split_ifs <;> simp_all [HpInv, Fighting, Soul.maxHp]
  · -- Victory
    simp only [updateVictory]
    split_ifs <;> simp_all [HpInv, Fighting, Soul.maxHp]
  · -- GameOver
    simp only [updateGameOver]
    split_ifs <;> simp_all [HpInv, Fighting, Soul.maxHp]

theorem hpInv_reachable (sqrtf : K → K) (g : Game K) (h : Reachable sqrtf g) : HpInv g := by
  induction h with
  | start => exact hpInv_init
  | step g inp _ ih => exact hpInv_tick sqrtf g inp ih

theorem defeatedInv_tick (sqrtf : K → K) (g : Game K) (inp : Input K) (h : DefeatedInv g) :
    DefeatedInv (tick sqrtf g inp) := by
  unfold DefeatedInv at h ⊢
  unfold tick
  cases hm : g.mode <;> simp only [hm] at h <;> simp only []
  · simp only [updateOverworld, encounterCheck]
    split_ifs <;> simp_all
  · simp only [updateEncounterMenu, startSoulFlyIn]
    split_ifs <;> simp_all
  · simp only [updateSoulFlyIn, startBattlePhase]
    split_ifs <;> simp_all
  · simp only [updateBattle]
    simp_all
  · simp only [updateAttackTurn]
    split_ifs <;> simp_all
  · simp only [updateDamageMsg, leaveDamageMsg, startBattlePhase]
    split_ifs <;> simp_all
  · simp only [updateEnemyDefeated]
    split_ifs <;> simp_all
  · simp only [updateVictory]
    split_ifs <;> simp_all
  · simp only [updateGameOver]
    split_ifs <;> simp_all

theorem defeatedInv_reachable (sqrtf : K → K) (g : Game K) (h : Reachable sqrtf g) :
    DefeatedInv g := by
  induction h with
  | start => exact defeatedInv_init
  | step g inp _ ih => exact defeatedInv_tick sqrtf g inp ih

/-- A tick from a state with the trigger inactive (and the invariant) keeps it inactive. -/
theorem inactive_tick (sqrtf : K → K) (g : Game K) (inp : Input K) (h : DefeatedInv g)
    (hoff : g.encounter.active = false) : (tick sqrtf g inp).encounter.active = false := by
  have hm := h hoff
  unfold tick
  rcases hm with hm | hm | hm <;> simp only [hm]
  · simp only [updateOverworld, encounterCheck]
    split_ifs <;> simp_all
  · simp only [updateEnemyDefeated]
    split_ifs <;> simp_all
  · simp only [updateVictory]
    split_ifs <;> simp_all

theorem clear_tick (sqrtf : K → K) (g : Game K) (inp : Input K)
    (h : ((walls : List (FloatRect K)).any fun w => intersects (playerRect g.p) w) = false) :
    ((walls : List (FloatRect K)).any fun w =>
      intersects (playerRect (tick sqrtf g inp).p) w) = false := by
  unfold tick
  cases hm : g.mode <;> simp only []
  · have hp : (updateOverworld sqrtf (tickDt inp) inp g).p
        = stepPlayer (normalizeMove sqrtf (rawMove inp)) (tickDt inp) g.p := by
      simp only [updateOverworld, encounterCheck]
      split_ifs <;> rfl
    rw [hp]
    exact stepPlayer_clear _ _ _ h
  · have hp : (updateEncounterMenu inp g).p = g.p := by
      simp only [updateEncounterMenu, startSoulFlyIn]
      split_ifs <;> rfl
    rw [hp]; exact h
  · have hp : (updateSoulFlyIn (tickDt inp) g).p = g.p := by
      simp only [updateSoulFlyIn, startBattlePhase]
      split_ifs <;> rfl
    rw [hp]; exact h
  · exact h
  · have hp : (updateAttackTurn inp g).p = g.p := by
      simp only [updateAttackTurn]
      split_ifs <;> rfl
    rw [hp]; exact h
  · have hp : (updateDamageMsg (tickDt inp) inp g).p = g.p := by
      simp only [updateDamageMsg, leaveDamageMsg, startBattlePhase]
      split_ifs <;> rfl
    rw [hp]; exact h
  · have hp : (updateEnemyDefeated (tickDt inp) inp g).p = g.p := by
      simp only [updateEnemyDefeated]
      split_ifs <;> rfl
    rw [hp]; exact h
  · have hp : (updateVictory inp g).p = g.p := by
      simp only [updateVictory]
      split_ifs <;> rfl
    rw [hp]; exact h
  · simp only [updateGameOver]
    split_ifs
    · exact init_clear
    · exact h

/-! ## C1 -/

/-- C1: in every state the frame loop can reach from the initial state (soul hp 20,
mode `Overworld`), whatever the sampled keys, elapsed times and `rand()` results of the
ticks, the soul's hp is at least 0 and at most `maxHp`. -/
theorem soul_hp_bounds (sqrtf : K → K) (g : Game K) (h : Reachable sqrtf g) :
    0 ≤ g.soul.hp ∧ g.soul.hp ≤ g.soul.maxHp :=
  ⟨(hpInv_reachable sqrtf g h).1, (hpInv_reachable sqrtf g h).2.1⟩

end Frame

/-- Witness of C1: the lost session ends in `GameOver` with hp exactly 0, within the
bounds. -/
theorem soul_hp_bounds_witness :
    ((run sqrtNewton init loseSession).mode = GameMode.GameOver ∧
      (run sqrtNewton init loseSession).soul.hp = 0) ∧
    (0 ≤ (run sqrtNewton init loseSession).soul.hp ∧
      (run sqrtNewton init loseSession).soul.hp ≤ (run sqrtNewton init loseSession).soul.maxHp) :=
  ⟨by decide!, soul_hp_bounds sqrtNewton _ (reachable_session sqrtNewton loseSession)⟩

/-! ## Sample sessions -/

theorem reachable_atMenuAttack : Reachable sqrtNewton atMenuAttack :=
  reachable_session sqrtNewton (intoBattle.take 47)

theorem reachable_atFirstAttack : Reachable sqrtNewton atFirstAttack :=
  reachable_session sqrtNewton toFirstAttack

theorem reachable_atSecondAttack : Reachable sqrtNewton atSecondAttack :=
  reachable_session sqrtNewton toSecondAttack

/-- The menu state of the sample sessions, by evaluation of the 47 ticks. -/
theorem atMenuAttack_facts :
    atMenuAttack.mode = GameMode.EncounterMenu ∧ atMenuAttack.menuIndex = 1 ∧
    atMenuAttack.prevEnter = false ∧ atMenuAttack.prevEsc = false ∧
    atMenuAttack.prevW = false ∧ atMenuAttack.prevS = true ∧
    atMenuAttack.p.pos = ⟨615, 260⟩ ∧ atMenuAttack.soul.pos = ⟨443, 253⟩ := by
  decide!

/-- The first `AttackTurn` of the won session, by evaluation of the 319 ticks. -/
theorem atFirstAttack_facts :
    atFirstAttack.mode = GameMode.AttackTurn ∧ atFirstAttack.enemyHp = 100 ∧
    atFirstAttack.encounter.active = true ∧
    atFirstAttack.prevEnter = false ∧ atFirstAttack.prevEsc = false := by
  decide!

/-- The second `AttackTurn` of the won session, by evaluation of the 563 ticks. -/
theorem atSecondAttack_facts :
    atSecondAttack.mode = GameMode.AttackTurn ∧ atSecondAttack.enemyHp = 30 ∧
    atSecondAttack.encounter.active = true ∧
    atSecondAttack.prevEnter = false ∧ atSecondAttack.prevEsc = false := by
  decide!

/-- The won session ends with the second confirmed attack. -/
theorem winSession_end :
    run sqrtNewton init winSession
      = updateAttackTurn { idle 0 with keyEnter := true } atSecondAttack := by
  rw [winSession, run_append]
  show run sqrtNewton atSecondAttack [_] = _
  rw [run_cons, run_nil, tick_attackTurn sqrtNewton _ _ atSecondAttack_facts.1]

section Claims

variable {K : Type} [LinearOrderedField K] [FloorRing K]

/-! ## C2 -/

/-- C2: from a reachable state in which the encounter trigger is inactive, every
sequence of ticks leads to a state in which the trigger is still inactive, and the
mode is neither `GameOver` (so the restart, which would re-activate the trigger, is
never executed) nor `EncounterMenu` (the menu is never entered again). -/
theorem no_refight (sqrtf : K → K) (g : Game K) (h : Reachable sqrtf g)
    (hoff : g.encounter.active = false) (inps : List (Input K)) :
    (run sqrtf g inps).encounter.active = false ∧
    (run sqrtf g inps).mode ≠ GameMode.GameOver ∧
    (run sqrtf g inps).mode ≠ GameMode.EncounterMenu := by
  have key : ∀ (inps : List (Input K)) (g : Game K), Reachable sqrtf g →
      g.encounter.active = false → (run sqrtf g inps).encounter.active = false := by
    intro inps
    induction inps with
    | nil => intro g _ hoff; exact hoff
    | cons inp rest ih =>
      intro g hg hoff
      exact ih _ (Reachable.step g inp hg)
        (inactive_tick sqrtf g inp (defeatedInv_reachable sqrtf g hg) hoff)
  have hoff2 := key inps g h hoff
  have hinv := defeatedInv_reachable sqrtf _ (reachable_run sqrtf g h inps) hoff2
  refine ⟨hoff2, ?_, ?_⟩ <;> rcases hinv with hm | hm | hm <;> simp [hm]

end Claims

/-- Witness of C2: after the won session the trigger is inactive, and it stays so
through further ticks with `Enter`, `R` and `E` pressed. -/
theorem no_refight_witness :
    (run sqrtNewton init winSession).encounter.active = false ∧
    ((run sqrtNewton (run sqrtNewton init winSession)
        [idle 0, { idle 0 with keyEnter := true }, idle 0, { idle 0 with keyEnter := true },
         { idle 0 with keyR := true }, { idle 0 with keyE := true }]).encounter.active = false ∧
     (run sqrtNewton (run sqrtNewton init winSession)
        [idle 0, { idle 0 with keyEnter := true }, idle 0, { idle 0 with keyEnter := true },
         { idle 0 with keyR := true }, { idle 0 with keyE := true }]).mode ≠ GameMode.GameOver ∧
     (run sqrtNewton (run sqrtNewton init winSession)
        [idle 0, { idle 0 with keyEnter := true }, idle 0, { idle 0 with keyEnter := true },
         { idle 0 with keyR := true }, { idle 0 with keyE := true }]).mode
       ≠ GameMode.EncounterMenu) :=
  have hoff : (run sqrtNewton init winSession).encounter.active = false := by
    rw [winSession_end]
    exact (attackTurn_enter _ atSecondAttack rfl atSecondAttack_facts.2.2.2.1).2.1
      (by rw [atSecondAttack_facts.2.1]; decide)
  ⟨hoff, no_refight sqrtNewton _ (reachable_session sqrtNewton winSession) hoff _⟩

section Claims3

variable {K : Type} [LinearOrderedField K] [FloorRing K]

/-! ## C3 -/

/-- C3: in every reachable state the player's hitbox rectangle at `p.pos` intersects
none of the five walls (the wall scan of the movement step finds nothing), also after
the `GameOver` restart has reset the position. -/
theorem player_clear_of_walls (sqrtf : K → K) (g : Game K) (h : Reachable sqrtf g) :
    ((walls : List (FloatRect K)).any fun w => intersects (playerRect g.p) w) = false := by
  induction h with
  | start => exact init_clear
  | step g inp _ ih => exact clear_tick sqrtf g inp ih

end Claims3

/-- Witness of C3: the lost session followed by the restart (`R`) is back in
`Overworld` at (120, 260), clear of the walls. -/
theorem player_clear_of_walls_witness :
    (run sqrtNewton init (loseSession ++ [{ idle 0 with keyR := true }])).mode
      = GameMode.Overworld ∧
    ((walls : List (FloatRect ℚ)).any fun w =>
      intersects (playerRect (run sqrtNewton init
        (loseSession ++ [{ idle 0 with keyR := true }])).p) w) = false :=
  ⟨by decide!, player_clear_of_walls sqrtNewton _ (reachable_session sqrtNewton _)⟩

section Battle

variable {K : Type} [LinearOrderedField K]

/-! ## The collision check -/

theorem hitLoop_hit (sr : FloatRect K) (soul : Soul K) (bs : List (Bullet K))
    (h : ∃ b ∈ bs, intersects sr (bulletRect b) = true) :
    hitLoop sr soul bs = { soul with hp := soul.hp - 5, invuln := true, invulnTimer := 3 / 5 } := by
  induction bs with
  | nil => simp at h
  | cons b rest ih =>
    unfold hitLoop
    split_ifs with hb
    · rfl
    · apply ih
      obtain ⟨c, hc, hi⟩ := h
      rcases List.mem_cons.mp hc with rfl | hc
      · exact absurd hi hb
      · exact ⟨c, hc, hi⟩

theorem hitLoop_miss (sr : FloatRect K) (soul : Soul K) (bs : List (Bullet K))
    (h : ∀ b ∈ bs, intersects sr (bulletRect b) = false) : hitLoop sr soul bs = soul := by
  induction bs with
  | nil => rfl
  | cons b rest ih =>
    unfold hitLoop
    rw [h b (List.mem_cons_self _ _)]
    simpa using ih (fun c hc => h c (List.mem_cons_of_mem _ hc))

theorem hitLoop_cases (sr : FloatRect K) (soul : Soul K) (bs : List (Bullet K)) :
    hitLoop sr soul bs = soul ∨
    hitLoop sr soul bs = { soul with hp := soul.hp - 5, invuln := true, invulnTimer := 3 / 5 } := by
  by_cases h : ∃ b ∈ bs, intersects sr (bulletRect b) = true
  · right; exact hitLoop_hit sr soul bs h
  · left
    apply hitLoop_miss
    intro b hb
    by_contra hc
    exact h ⟨b, hb, by simpa using hc⟩

theorem collisionCheck_invuln (soul : Soul K) (bs : List (Bullet K)) (h : soul.invuln = true) :
    collisionCheck soul bs = soul := by
  simp [collisionCheck, h]

theorem collisionCheck_vulnerable (soul : Soul K) (bs : List (Bullet K))
    (h : soul.invuln = false) : collisionCheck soul bs = hitLoop (soulRect soul) soul bs := by
  simp [collisionCheck, h, soulRect]

theorem soulAtCheck_hp (sqrtf : K → K) (inp : Input K) (g : Game K) :
    (soulAtCheck sqrtf inp g).hp = g.soul.hp := by
  simp only [soulAtCheck, invulnDecay_hp, moveSoul_hp]

variable [FloorRing K]

theorem tick_battle_soul (sqrtf : K → K) (g : Game K) (inp : Input K)
    (hm : g.mode = GameMode.Battle) :
    (tick sqrtf g inp).soul = collisionCheck (soulAtCheck sqrtf inp g) (bulletsAtCheck inp g) := by
  rw [tick_battle sqrtf g inp hm]
  rfl

/-! ## C4 -/

/-- C4: in a `Battle` tick the soul after the tick is the result of the collision check
on the moved soul and the integrated bullets.  If at the check the soul is not
invulnerable and at least one live bullet's square intersects its hitbox (one, two or
more), hp is the hp before the tick minus exactly 5, `invuln` is true and `invulnTimer`
is 0.6; if no live bullet's square intersects, the check leaves the soul (hp, `invuln`,
`invulnTimer`) as it found it. -/
theorem battle_collision (sqrtf : K → K) (g : Game K) (inp : Input K)
    (hm : g.mode = GameMode.Battle) :
    (soulAtCheck sqrtf inp g).hp = g.soul.hp ∧
    ((soulAtCheck sqrtf inp g).invuln = false →
      (∃ b ∈ bulletsAtCheck inp g,
        intersects (soulRect (soulAtCheck sqrtf inp g)) (bulletRect b) = true) →
      (tick sqrtf g inp).soul.hp = g.soul.hp - 5 ∧
      (tick sqrtf g inp).soul.invuln = true ∧
      (tick sqrtf g inp).soul.invulnTimer = 3 / 5) ∧
    ((∀ b ∈ bulletsAtCheck inp g,
        intersects (soulRect (soulAtCheck sqrtf inp g)) (bulletRect b) = false) →
      (tick sqrtf g inp).soul = soulAtCheck sqrtf inp g) := by
  refine ⟨soulAtCheck_hp sqrtf inp g, ?_, ?_⟩
  · intro hv hex
    rw [tick_battle_soul sqrtf g inp hm, collisionCheck_vulnerable _ _ hv,
      hitLoop_hit _ _ _ hex]
    exact ⟨by rw [soulAtCheck_hp], rfl, rfl⟩
  · intro hnone
    rw [tick_battle_soul sqrtf g inp hm]
    by_cases hv : (soulAtCheck sqrtf inp g).invuln = true
    · exact collisionCheck_invuln _ _ hv
    · rw [collisionCheck_vulnerable _ _ (by simpa using hv)]
      exact hitLoop_miss _ _ _ hnone

end Battle

/-- Witness of C4: with two bullets overlapping the soul on the same tick, hp goes from
20 to 15 (not 10), and the soul is invulnerable for 0.6 s. -/
theorem battle_collision_witness :
    (bulletsAtCheck (idle 0) twoBullets).length = 2 ∧
    (∀ b ∈ bulletsAtCheck (idle 0) twoBullets,
      intersects (soulRect (soulAtCheck sqrtNewton (idle 0) twoBullets)) (bulletRect b) = true) ∧
    (tick sqrtNewton twoBullets (idle 0)).soul.hp = 20 - 5 ∧
    (tick sqrtNewton twoBullets (idle 0)).soul.invuln = true ∧
    (tick sqrtNewton twoBullets (idle 0)).soul.invulnTimer = 3 / 5 :=
  ⟨by decide!, by decide!,
    (battle_collision sqrtNewton twoBullets (idle 0) rfl).2.1 (by decide!)
      ⟨⟨⟨450, 270⟩, ⟨0, 300⟩, 6, true⟩, by decide!, by decide!⟩⟩

section Window

variable {K : Type} [LinearOrderedField K]

/-! ## The invulnerability window -/

theorem tickDt_nonneg (inp : Input K) (h : 0 ≤ inp.elapsed) : 0 ≤ tickDt inp := by
  unfold tickDt
  exact le_min h (by norm_num)

theorem sum_tickDt_nonneg (ins : List (Input K)) (h : ∀ x ∈ ins, 0 ≤ x.elapsed) :
    0 ≤ (ins.map tickDt).sum := by
  induction ins with
  | nil => simp
  | cons x rest ih =>
    simp only [List.map_cons, List.sum_cons]
    have h1 := tickDt_nonneg x (h x (List.mem_cons_self _ _))
    have h2 := ih (fun y hy => h y (List.mem_cons_of_mem _ hy))
    linarith

theorem invulnDecay_shielded (dt : K) (soul : Soul K) (hi : soul.invuln = true)
    (hpos : 0 < soul.invulnTimer - dt) :
    invulnDecay dt soul = { soul with invulnTimer := soul.invulnTimer - dt } := by
  simp only [invulnDecay, hi, if_true]
  rw [if_neg (not_le.mpr hpos)]

theorem invulnDecay_expired (dt : K) (soul : Soul K)
    (h : (invulnDecay dt soul).invuln = false) (hi : soul.invuln = true) :
    soul.invulnTimer - dt ≤ 0 := by
  by_contra hc
  rw [invulnDecay_shielded dt soul hi (not_le.mp hc)] at h
  simp [hi] at h

theorem soulAtCheck_shielded (sqrtf : K → K) (inp : Input K) (g : Game K)
    (hi : g.soul.invuln = true) (hpos : 0 < g.soul.invulnTimer - tickDt inp) :
    (soulAtCheck sqrtf inp g).invuln = true ∧
    (soulAtCheck sqrtf inp g).invulnTimer = g.soul.invulnTimer - tickDt inp := by
  unfold soulAtCheck
  rw [invulnDecay_shielded (tickDt inp) (moveSoul sqrtf (tickDt inp) inp g.soul) hi hpos]
  exact ⟨hi, rfl⟩

variable [FloorRing K]

/-- A `Battle` tick on which the stepped timer is still positive applies no damage and
leaves the soul invulnerable with the stepped timer. -/
theorem battle_tick_shielded (sqrtf : K → K) (g : Game K) (inp : Input K)
    (hm : g.mode = GameMode.Battle) (hi : g.soul.invuln = true)
    (hpos : 0 < g.soul.invulnTimer - tickDt inp) :
    (tick sqrtf g inp).soul.hp = g.soul.hp ∧ (tick sqrtf g inp).soul.invuln = true ∧
    (tick sqrtf g inp).soul.invulnTimer = g.soul.invulnTimer - tickDt inp := by
  obtain ⟨h1, h2⟩ := soulAtCheck_shielded sqrtf inp g hi hpos
  rw [tick_battle_soul sqrtf g inp hm, collisionCheck_invuln _ _ h1]
  exact ⟨soulAtCheck_hp sqrtf inp g, h1, h2⟩

/-- A `Battle` tick that changes hp found the soul vulnerable at the check and leaves
it invulnerable with the timer at 0.6. -/
theorem battle_tick_damage (sqrtf : K → K) (g : Game K) (inp : Input K)
    (hm : g.mode = GameMode.Battle) (hd : (tick sqrtf g inp).soul.hp ≠ g.soul.hp) :
    (soulAtCheck sqrtf inp g).invuln = false ∧ (tick sqrtf g inp).soul.invuln = true ∧
    (tick sqrtf g inp).soul.invulnTimer = 3 / 5 := by
  rw [tick_battle_soul sqrtf g inp hm] at hd ⊢
  by_cases hv : (soulAtCheck sqrtf inp g).invuln = true
  · rw [collisionCheck_invuln _ _ hv, soulAtCheck_hp] at hd
    exact absurd rfl hd
  · have hv2 : (soulAtCheck sqrtf inp g).invuln = false := by simpa using hv
    rw [collisionCheck_vulnerable _ _ hv2] at hd ⊢
    rcases hitLoop_cases (soulRect (soulAtCheck sqrtf inp g)) (soulAtCheck sqrtf inp g)
      (bulletsAtCheck inp g) with h | h
    · rw [h, soulAtCheck_hp] at hd
      exact absurd rfl hd
    · rw [h]
      exact ⟨hv2, rfl, rfl⟩

theorem battleTicks_cons (sqrtf : K → K) (g : Game K) (x : Input K) (xs : List (Input K)) :
    battleTicks sqrtf g (x :: xs) = true ↔
      g.mode = GameMode.Battle ∧ battleTicks sqrtf (tick sqrtf g x) xs = true := by
  simp [battleTicks]

/-- From an invulnerable soul with timer `T`, a run of `Battle` ticks whose last tick
applies damage lasts at least `T`. -/
theorem window_aux (sqrtf : K → K) (ins : List (Input K)) (b : Input K) :
    ∀ g : Game K, g.soul.invuln = true → battleTicks sqrtf g (ins ++ [b]) = true →
      (∀ x ∈ ins ++ [b], 0 ≤ x.elapsed) →
      (run sqrtf g (ins ++ [b])).soul.hp ≠ (run sqrtf g ins).soul.hp →
      g.soul.invulnTimer ≤ ((ins ++ [b]).map tickDt).sum := by
  induction ins with
  | nil =>
    intro g hi hrun _ hd
    simp only [List.nil_append, battleTicks_cons] at hrun
    have hd2 : (tick sqrtf g b).soul.hp ≠ g.soul.hp := hd
    have hv := (battle_tick_damage sqrtf g b hrun.1 hd2).1
    have := invulnDecay_expired (tickDt b) (moveSoul sqrtf (tickDt b) b g.soul) hv hi
    have h2 : (moveSoul sqrtf (tickDt b) b g.soul).invulnTimer = g.soul.invulnTimer := rfl
    simp only [List.nil_append, List.map_cons, List.map_nil, List.sum_cons, List.sum_nil]
    rw [h2] at this
    linarith
  | cons x rest ih =>
    intro g hi hrun hdt hd
    simp only [List.cons_append, battleTicks_cons] at hrun
    simp only [List.cons_append, List.map_cons, List.sum_cons]
    have hrest : 0 ≤ ((rest ++ [b]).map tickDt).sum :=
      sum_tickDt_nonneg _ (fun y hy => hdt y (List.mem_cons_of_mem _ hy))
    by_cases hpos : 0 < g.soul.invulnTimer - tickDt x
    · obtain ⟨_, h2, h3⟩ := battle_tick_shielded sqrtf g x hrun.1 hi hpos
      have := ih (tick sqrtf g x) h2 hrun.2
        (fun y hy => hdt y (List.mem_cons_of_mem _ hy)) hd
      rw [h3] at this
      linarith
    · have := not_lt.mp hpos
      linarith

/-! ## C5 -/

/-- C5: (1) in a run of consecutive `Battle` ticks with non-negative elapsed times, if
the first tick `a` applies damage and a later tick `b` applies damage, the `dt` values
of the ticks after `a` up to and including `b` sum to at least 0.6; (2) a `Battle` tick
that finds the soul invulnerable with a timer still positive after the decrement by
`dt` leaves hp unchanged. -/
theorem invulnerability_window (sqrtf : K → K) :
    (∀ (g : Game K) (a : Input K) (mid : List (Input K)) (b : Input K),
      battleTicks sqrtf g (a :: (mid ++ [b])) = true →
      (∀ x ∈ mid ++ [b], 0 ≤ x.elapsed) →
      (tick sqrtf g a).soul.hp ≠ g.soul.hp →
      (run sqrtf g (a :: (mid ++ [b]))).soul.hp ≠ (run sqrtf g (a :: mid)).soul.hp →
      3 / 5 ≤ ((mid ++ [b]).map tickDt).sum) ∧
    (∀ (g : Game K) (inp : Input K), g.mode = GameMode.Battle → g.soul.invuln = true →
      0 < g.soul.invulnTimer - tickDt inp → (tick sqrtf g inp).soul.hp = g.soul.hp) := by
  constructor
  · intro g a mid b hrun hdt hda hdb
    rw [battleTicks_cons] at hrun
    obtain ⟨_, h2, h3⟩ := battle_tick_damage sqrtf g a hrun.1 hda
    have := window_aux sqrtf mid b (tick sqrtf g a) h2 hrun.2 hdt hdb
    rw [h3] at this
    exact this
  · intro g inp hm hi hpos
    exact (battle_tick_shielded sqrtf g inp hm hi hpos).1

end Window

/-- Witness of C5: in the lost session the first hit comes on battle tick 12 and the
next on battle tick 27; the 15 ticks in between last 0.75 s. -/
theorem invulnerability_window_witness :
    ((tick sqrtNewton firstHit (idle 178)).soul.hp = 15 ∧
      (run sqrtNewton firstHit
        (idle 178 :: (List.replicate 14 (idle 178) ++ [idle 178]))).soul.hp = 10) ∧
    (3 : ℚ) / 5 ≤ ((List.replicate 14 (idle 178) ++ [idle 178]).map tickDt).sum :=
  have h : battleTicks sqrtNewton firstHit
        (idle 178 :: (List.replicate 14 (idle 178) ++ [idle 178])) = true ∧
      (∀ x ∈ List.replicate 14 (idle 178) ++ [idle 178], 0 ≤ x.elapsed) ∧
      (tick sqrtNewton firstHit (idle 178)).soul.hp ≠ firstHit.soul.hp ∧
      (run sqrtNewton firstHit
          (idle 178 :: (List.replicate 14 (idle 178) ++ [idle 178]))).soul.hp
        ≠ (run sqrtNewton firstHit (idle 178 :: List.replicate 14 (idle 178))).soul.hp := by
    decide!
  ⟨by decide!,
    (invulnerability_window sqrtNewton).1 firstHit (idle 178) (List.replicate 14 (idle 178))
      (idle 178) h.1 h.2.1 h.2.2.1 h.2.2.2⟩

section Transitions

variable {K : Type} [LinearOrderedField K] [FloorRing K]

/-! ## C6 -/

/-- C6: for a `Battle` tick, with `battleTime' = battleTime + dt` and `hp'` the soul hp
after the collision step: the mode after the tick is `GameOver` if `hp' ≤ 0` (whatever
`battleTime'`), otherwise `AttackTurn` if `battleTime' ≥ 12`, otherwise `Battle`;
whenever `battleTime' ≥ 12` no bullet is left; hp is changed by nothing but the
collision step (it is the old hp or the old hp minus 5), and it is unchanged when the
check finds the soul invulnerable or no bullet's square on its hitbox. -/
theorem battle_transition (sqrtf : K → K) (g : Game K) (inp : Input K)
    (hm : g.mode = GameMode.Battle) :
    (tick sqrtf g inp).battleTime = g.battleTime + tickDt inp ∧
    (tick sqrtf g inp).mode =
      (if (tick sqrtf g inp).soul.hp ≤ 0 then GameMode.GameOver
       else if g.battleTime + tickDt inp ≥ 12 then GameMode.AttackTurn
       else GameMode.Battle) ∧
    (g.battleTime + tickDt inp ≥ 12 → (tick sqrtf g inp).bullets = []) ∧
    ((tick sqrtf g inp).soul.hp = g.soul.hp ∨ (tick sqrtf g inp).soul.hp = g.soul.hp - 5) ∧
    ((soulAtCheck sqrtf inp g).invuln = true ∨
        (∀ b ∈ bulletsAtCheck inp g,
          intersects (soulRect (soulAtCheck sqrtf inp g)) (bulletRect b) = false) →
      (tick sqrtf g inp).soul.hp = g.soul.hp) := by
  refine ⟨?_, ?_, ?_, ?_, ?_⟩
  · rw [tick_battle sqrtf g inp hm]; rfl
  · rw [tick_battle sqrtf g inp hm, updateBattle_mode, hm]
  · intro h12
    rw [tick_battle sqrtf g inp hm]
    simp only [updateBattle]
    rw [if_pos h12]
  · rw [tick_battle sqrtf g inp hm]
    exact updateBattle_hp sqrtf (tickDt inp) inp g
  · intro h
    rw [tick_battle_soul sqrtf g inp hm]
    rcases h with h | h
    · rw [collisionCheck_invuln _ _ h, soulAtCheck_hp]
    · by_cases hv : (soulAtCheck sqrtf inp g).invuln = true
      · rw [collisionCheck_invuln _ _ hv, soulAtCheck_hp]
      · rw [collisionCheck_vulnerable _ _ (by simpa using hv), hitLoop_miss _ _ _ h,
          soulAtCheck_hp]

end Transitions

/-- Witness of C6: the last tick of the first battle phase of the won session reaches
12 s with hp still 20 and hands over to `AttackTurn` with no bullet left. -/
theorem battle_transition_witness :
    (lastBattleTick.mode = GameMode.Battle ∧
      lastBattleTick.battleTime + tickDt (idle 0) = 12 ∧
      (tick sqrtNewton lastBattleTick (idle 0)).soul.hp = 20) ∧
    (tick sqrtNewton lastBattleTick (idle 0)).mode = GameMode.AttackTurn ∧
    (tick sqrtNewton lastBattleTick (idle 0)).bullets = [] :=
  have h0 : lastBattleTick.mode = GameMode.Battle ∧
      lastBattleTick.battleTime + tickDt (idle 0) = 12 ∧
      (tick sqrtNewton lastBattleTick (idle 0)).soul.hp = 20 := by decide!
  have h := battle_transition sqrtNewton lastBattleTick (idle 0) h0.1
  ⟨h0, by rw [h.2.1, h0.2.2, h0.2.1]; decide, h.2.2.1 (by rw [h0.2.1])⟩

section Menus

variable {K : Type} [LinearOrderedField K] [FloorRing K]

/-! ## C7 -/

/-- C7: on an `AttackTurn` tick on which `Enter` is just-pressed and `Escape` is not,
the enemy hp becomes `max(0, enemyHp - 70)`, which is never negative and stays within
0..100 if it was; if the new enemy hp is `≤ 0` the mode becomes `EnemyDefeated` and the
trigger becomes inactive, otherwise the mode becomes `DamageMsg` and the trigger's
active flag is unchanged.  From 100 this gives 30 and `DamageMsg`, from 30 it gives 0
and `EnemyDefeated`. -/
theorem attack_confirm (sqrtf : K → K) (g : Game K) (inp : Input K)
    (hm : g.mode = GameMode.AttackTurn)
    (hEnter : (justPressed inp.keyEnter g.prevEnter).1 = true)
    (hEsc : (justPressed inp.keyEscape g.prevEsc).1 = false) :
    (tick sqrtf g inp).enemyHp = max 0 (g.enemyHp - 70) ∧
    0 ≤ (tick sqrtf g inp).enemyHp ∧
    (0 ≤ g.enemyHp ∧ g.enemyHp ≤ 100 → (tick sqrtf g inp).enemyHp ≤ 100) ∧
    ((tick sqrtf g inp).enemyHp ≤ 0 →
      (tick sqrtf g inp).mode = GameMode.EnemyDefeated ∧
      (tick sqrtf g inp).encounter.active = false) ∧
    (¬ (tick sqrtf g inp).enemyHp ≤ 0 →
      (tick sqrtf g inp).mode = GameMode.DamageMsg ∧
      (tick sqrtf g inp).encounter.active = g.encounter.active) ∧
    (g.enemyHp = 100 →
      (tick sqrtf g inp).enemyHp = 30 ∧ (tick sqrtf g inp).mode = GameMode.DamageMsg) ∧
    (g.enemyHp = 30 →
      (tick sqrtf g inp).enemyHp = 0 ∧ (tick sqrtf g inp).mode = GameMode.EnemyDefeated) := by
  rw [tick_attackTurn sqrtf g inp hm]
  simp only [updateAttackTurn, hEnter, hEsc, if_true]
  by_cases h : max 0 (g.enemyHp - 70) ≤ 0
  · simp only [if_pos h]
    refine ⟨rfl, le_max_left _ _, ?_, ?_, ?_, ?_, ?_⟩
    · intro hb; simp only [Bool.false_eq_true, if_false]; omega
    · intro _; exact ⟨rfl, rfl⟩
    · intro hn; exact absurd h hn
    · intro h100; rw [h100] at h; omega
    · intro h30; rw [h30]; simp
  · simp only [if_neg h]
    refine ⟨rfl, le_max_left _ _, ?_, ?_, ?_, ?_, ?_⟩
    · intro hb; simp only [Bool.false_eq_true, if_false]; omega
    · intro hn; exact absurd hn h
    · intro _; exact ⟨rfl, rfl⟩
    · intro h100; rw [h100]; simp
    · intro h30; rw [h30] at h; omega

end Menus

/-- Witness of C7: at the first `AttackTurn` of the won session (enemy hp 100), `Enter`
takes the enemy to 30 and the mode to `DamageMsg`. -/
theorem attack_confirm_witness :
    Reachable sqrtNewton atFirstAttack ∧ atFirstAttack.enemyHp = 100 ∧
    (tick sqrtNewton atFirstAttack { idle 0 with keyEnter := true }).enemyHp = 30 ∧
    (tick sqrtNewton atFirstAttack { idle 0 with keyEnter := true }).mode
      = GameMode.DamageMsg :=
  ⟨reachable_atFirstAttack, atFirstAttack_facts.2.1,
    (attack_confirm sqrtNewton atFirstAttack { idle 0 with keyEnter := true }
      atFirstAttack_facts.1
      (by simp [justPressed, idle, atFirstAttack_facts])
      (by simp [justPressed, idle])).2.2.2.2.2.1 atFirstAttack_facts.2.1⟩

section Cancel

variable {K : Type} [LinearOrderedField K] [FloorRing K]

/-! ## C8 -/

/-- C8, amended: on an `AttackTurn` tick on which `Escape` is just-pressed the mode
after the tick is `Overworld`; if `Enter` is not just-pressed on that tick, the enemy hp
and the trigger's active flag are the same as before the tick. -/
theorem attack_cancel (sqrtf : K → K) (g : Game K) (inp : Input K)
    (hm : g.mode = GameMode.AttackTurn)
    (hEsc : (justPressed inp.keyEscape g.prevEsc).1 = true) :
    (tick sqrtf g inp).mode = GameMode.Overworld ∧
    ((justPressed inp.keyEnter g.prevEnter).1 = false →
      (tick sqrtf g inp).enemyHp = g.enemyHp ∧
      (tick sqrtf g inp).encounter.active = g.encounter.active) := by
  rw [tick_attackTurn sqrtf g inp hm]
  constructor
  · simp [updateAttackTurn, hEsc]
  · intro hEnter
    simp [updateAttackTurn, hEsc, hEnter]

/-! ## C9 -/

/-- C9, amended: on an `EncounterMenu` tick on which `Escape` is just-pressed, unless
`Enter` is also just-pressed with "attack" selected (`menuIndex ≠ 0` once the `W`/`S`
presses of the tick are applied), the mode after the tick is `Overworld` and enemy hp,
battle stage, soul hp and soul position are the same as before the tick. -/
theorem menu_cancel (sqrtf : K → K) (g : Game K) (inp : Input K)
    (hm : g.mode = GameMode.EncounterMenu)
    (hEsc : (justPressed inp.keyEscape g.prevEsc).1 = true)
    (hEnter : (justPressed inp.keyEnter g.prevEnter).1 = false ∨ menuAfterKeys inp g = 0) :
    (tick sqrtf g inp).mode = GameMode.Overworld ∧
    (tick sqrtf g inp).enemyHp = g.enemyHp ∧
    (tick sqrtf g inp).battleStage = g.battleStage ∧
    (tick sqrtf g inp).soul.hp = g.soul.hp ∧
    (tick sqrtf g inp).soul.pos = g.soul.pos := by
  rw [tick_encounterMenu sqrtf g inp hm]
  by_cases hE : (justPressed inp.keyEnter g.prevEnter).1 = true
  · have h0 : menuAfterKeys inp g = 0 := by
      rcases hEnter with h | h
      · rw [hE] at h; exact absurd h (by decide)
      · exact h
    simp [updateEncounterMenu, hEsc, hE, h0]
  · simp [updateEncounterMenu, hEsc, hE]

/-! ## C10 -/

/-- C10: on an `EncounterMenu` tick on which `Enter` is just-pressed, with `menuIndex`
read where the `Enter` handler reads it (after the `W`/`S` presses of the tick; it is
the value before the tick when neither is just-pressed): if it is 1, then after the tick
the mode is `SoulFlyIn`, enemy hp = `enemyMaxHp` = 100, the displayed enemy hp is 100,
the battle stage is 1, soul hp = `maxHp`, the soul is not invulnerable and its timer is
0, there is no bullet, `soulFlyT`, `spawnTimer` and `battleTime` are 0, and the soul
position is the player-derived start, so the two hitboxes have the same centre; if it is
0, the mode is `Overworld` and none of these are changed. -/
theorem menu_confirm (sqrtf : K → K) (g : Game K) (inp : Input K)
    (hm : g.mode = GameMode.EncounterMenu)
    (hEnter : (justPressed inp.keyEnter g.prevEnter).1 = true) :
    (menuAfterKeys inp g = 1 →
      (tick sqrtf g inp).mode = GameMode.SoulFlyIn ∧
      (tick sqrtf g inp).enemyHp = enemyMaxHp ∧ enemyMaxHp = 100 ∧
      (tick sqrtf g inp).enemyHpShown = 100 ∧
      (tick sqrtf g inp).battleStage = 1 ∧
      (tick sqrtf g inp).soul.hp = (tick sqrtf g inp).soul.maxHp ∧
      (tick sqrtf g inp).soul.invuln = false ∧
      (tick sqrtf g inp).soul.invulnTimer = 0 ∧
      (tick sqrtf g inp).bullets = [] ∧
      (tick sqrtf g inp).soulFlyT = 0 ∧
      (tick sqrtf g inp).spawnTimer = 0 ∧
      (tick sqrtf g inp).battleTime = 0 ∧
      (tick sqrtf g inp).soul.pos =
        ⟨g.p.pos.x + g.p.size.x / 2 - g.soul.size.x / 2,
         g.p.pos.y + g.p.size.y / 2 - g.soul.size.y / 2⟩ ∧
      (tick sqrtf g inp).soul.pos.x + (tick sqrtf g inp).soul.size.x / 2
        = (tick sqrtf g inp).p.pos.x + (tick sqrtf g inp).p.size.x / 2 ∧
      (tick sqrtf g inp).soul.pos.y + (tick sqrtf g inp).soul.size.y / 2
        = (tick sqrtf g inp).p.pos.y + (tick sqrtf g inp).p.size.y / 2) ∧
    (menuAfterKeys inp g = 0 →
      (tick sqrtf g inp).mode = GameMode.Overworld ∧
      (tick sqrtf g inp).enemyHp = g.enemyHp ∧
      (tick sqrtf g inp).enemyHpShown = g.enemyHpShown ∧
      (tick sqrtf g inp).battleStage = g.battleStage ∧
      (tick sqrtf g inp).soul = g.soul ∧
      (tick sqrtf g inp).bullets = g.bullets ∧
      (tick sqrtf g inp).soulFlyT = g.soulFlyT ∧
      (tick sqrtf g inp).spawnTimer = g.spawnTimer ∧
      (tick sqrtf g inp).battleTime = g.battleTime) ∧
    ((justPressed inp.keyW g.prevW).1 = false → (justPressed inp.keyS g.prevS).1 = false →
      menuAfterKeys inp g = g.menuIndex) := by
  rw [tick_encounterMenu sqrtf g inp hm]
  refine ⟨?_, ?_, ?_⟩
  · intro h1
    simp only [updateEncounterMenu, hEnter, h1, if_true, startSoulFlyIn]
    simp [enemyMaxHp, Soul.maxHp, Soul.size, PlayerOverworld.size]
  · intro h0
    simp [updateEncounterMenu, hEnter, h0]
  · intro hW hS
    simp only [menuAfterKeys, hW, hS, Bool.false_eq_true, if_false]

end Cancel

/-- Counterexample to C8 as stated: at either `AttackTurn` of the won session, a tick on
which `Escape` and `Enter` are both just-pressed commits the attack before returning to
`Overworld`: the enemy hp drops from 100 to 30, respectively from 30 to 0 with the
trigger switched off. -/
theorem attack_cancel_counterexample :
    (Reachable sqrtNewton atFirstAttack ∧ atFirstAttack.mode = GameMode.AttackTurn ∧
      (justPressed true atFirstAttack.prevEsc).1 = true ∧
      atFirstAttack.enemyHp = 100 ∧
      (tick sqrtNewton atFirstAttack
        { idle 0 with keyEnter := true, keyEscape := true }).mode = GameMode.Overworld ∧
      (tick sqrtNewton atFirstAttack
        { idle 0 with keyEnter := true, keyEscape := true }).enemyHp = 30) ∧
    (Reachable sqrtNewton atSecondAttack ∧ atSecondAttack.mode = GameMode.AttackTurn ∧
      (justPressed true atSecondAttack.prevEsc).1 = true ∧
      atSecondAttack.enemyHp = 30 ∧ atSecondAttack.encounter.active = true ∧
      (tick sqrtNewton atSecondAttack
        { idle 0 with keyEnter := true, keyEscape := true }).mode = GameMode.Overworld ∧
      (tick sqrtNewton atSecondAttack
        { idle 0 with keyEnter := true, keyEscape := true }).enemyHp = 0 ∧
      (tick sqrtNewton atSecondAttack
        { idle 0 with keyEnter := true, keyEscape := true }).encounter.active = false) := by
  have h1 := attackTurn_enter { idle 0 with keyEnter := true, keyEscape := true }
    atFirstAttack rfl atFirstAttack_facts.2.2.2.1
  have h2 := attackTurn_enter { idle 0 with keyEnter := true, keyEscape := true }
    atSecondAttack rfl atSecondAttack_facts.2.2.2.1
  rw [tick_attackTurn _ _ _ atFirstAttack_facts.1, tick_attackTurn _ _ _ atSecondAttack_facts.1,
    h1.1, h2.1, atFirstAttack_facts.2.2.2.2, atSecondAttack_facts.2.2.2.2]
  refine ⟨⟨reachable_atFirstAttack, atFirstAttack_facts.1, rfl, atFirstAttack_facts.2.1,
      h1.2.2 rfl atFirstAttack_facts.2.2.2.2, ?_⟩,
    ⟨reachable_atSecondAttack, atSecondAttack_facts.1, rfl, atSecondAttack_facts.2.1,
      atSecondAttack_facts.2.2.1, h2.2.2 rfl atSecondAttack_facts.2.2.2.2, ?_,
      h2.2.1 (by rw [atSecondAttack_facts.2.1]; decide)⟩⟩
  · rw [atFirstAttack_facts.2.1]; decide
  · rw [atSecondAttack_facts.2.1]; decide

/-- Witness of C8 (amended): `Escape` alone at the first `AttackTurn` of the won session
returns to `Overworld` with the enemy still at 100 and the trigger active. -/
theorem attack_cancel_witness :
    (tick sqrtNewton atFirstAttack { idle 0 with keyEscape := true }).mode
      = GameMode.Overworld ∧
    (tick sqrtNewton atFirstAttack { idle 0 with keyEscape := true }).enemyHp
      = atFirstAttack.enemyHp ∧
    (tick sqrtNewton atFirstAttack { idle 0 with keyEscape := true }).encounter.active
      = atFirstAttack.encounter.active :=
  have h := attack_cancel sqrtNewton atFirstAttack { idle 0 with keyEscape := true }
    atFirstAttack_facts.1 (by simp [justPressed, idle, atFirstAttack_facts])
  ⟨h.1, h.2 (by simp [justPressed, idle])⟩

/-- Counterexample to C9 as stated: in the menu of the sample sessions with "attack"
selected, a tick on which `Escape` and `Enter` are both just-pressed ends in `SoulFlyIn`,
not `Overworld`, and the soul has been moved from the box centre to the player. -/
theorem menu_cancel_counterexample :
    Reachable sqrtNewton atMenuAttack ∧ atMenuAttack.mode = GameMode.EncounterMenu ∧
    (justPressed true atMenuAttack.prevEsc).1 = true ∧
    (tick sqrtNewton atMenuAttack { idle 0 with keyEnter := true, keyEscape := true }).mode
      = GameMode.SoulFlyIn ∧
    atMenuAttack.soul.pos = ⟨443, 253⟩ ∧
    (tick sqrtNewton atMenuAttack { idle 0 with keyEnter := true, keyEscape := true }).soul.pos
      = ⟨622, 267⟩ :=
  ⟨reachable_atMenuAttack, by decide!⟩

/-- Witness of C9 (amended): `Escape` alone in that menu returns to `Overworld` and
leaves enemy hp, stage and soul alone. -/
theorem menu_cancel_witness :
    (tick sqrtNewton atMenuAttack { idle 0 with keyEscape := true }).mode
      = GameMode.Overworld ∧
    (tick sqrtNewton atMenuAttack { idle 0 with keyEscape := true }).enemyHp
      = atMenuAttack.enemyHp ∧
    (tick sqrtNewton atMenuAttack { idle 0 with keyEscape := true }).battleStage
      = atMenuAttack.battleStage ∧
    (tick sqrtNewton atMenuAttack { idle 0 with keyEscape := true }).soul.hp
      = atMenuAttack.soul.hp ∧
    (tick sqrtNewton atMenuAttack { idle 0 with keyEscape := true }).soul.pos
      = atMenuAttack.soul.pos :=
  menu_cancel sqrtNewton atMenuAttack { idle 0 with keyEscape := true }
    atMenuAttack_facts.1 (by simp [justPressed, idle, atMenuAttack_facts])
    (Or.inl (by simp [justPressed, idle]))

/-- Witness of C10: `Enter` in that menu, where the player stands at (615, 260), starts
the fly-in with the soul at (622, 267). -/
theorem menu_confirm_witness :
    atMenuAttack.p.pos = ⟨615, 260⟩ ∧
    (tick sqrtNewton atMenuAttack { idle 0 with keyEnter := true }).mode
      = GameMode.SoulFlyIn ∧
    (tick sqrtNewton atMenuAttack { idle 0 with keyEnter := true }).soul.pos
      = ⟨atMenuAttack.p.pos.x + atMenuAttack.p.size.x / 2 - atMenuAttack.soul.size.x / 2,
         atMenuAttack.p.pos.y + atMenuAttack.p.size.y / 2 - atMenuAttack.soul.size.y / 2⟩ :=
  have h := (menu_confirm sqrtNewton atMenuAttack { idle 0 with keyEnter := true }
    atMenuAttack_facts.1 (by simp [justPressed, idle, atMenuAttack_facts])).1
    (by simp [menuAfterKeys, justPressed, idle, atMenuAttack_facts])
  ⟨atMenuAttack_facts.2.2.2.2.2.2.1, h.1, h.2.2.2.2.2.2.2.2.2.2.2.2.1⟩

section Fly

variable {K : Type} [LinearOrderedField K]

/-! ## The fly-in -/

theorem clampf_ge_one_iff (v : K) : 1 ≤ clampf v 0 1 ↔ 1 ≤ v := by
  unfold clampf
  constructor
  · intro h
    rcases le_max_iff.mp h with h0 | h1
    · exact absurd h0 (by norm_num)
    · exact (le_min_iff.mp h1).2
  · intro h
    exact le_max_of_le_right (le_min le_rfl h)

theorem clampf_bounds (v lo hi : K) (h : lo ≤ hi) : lo ≤ clampf v lo hi ∧ clampf v lo hi ≤ hi := by
  unfold clampf
  exact ⟨le_max_left _ _, max_le h (min_le_left _ _)⟩

theorem clampf_mono (lo hi : K) {v w : K} (h : v ≤ w) : clampf v lo hi ≤ clampf w lo hi := by
  unfold clampf
  exact max_le_max le_rfl (min_le_min le_rfl h)

theorem flyT01_eq (T : K) : flyT01 T = clampf (T / (3 / 2)) 0 1 := by
  unfold flyT01 soulFlyDur
  rw [if_pos (by norm_num)]

theorem flyT01_ge_one_iff (T : K) : 1 ≤ flyT01 T ↔ 1 ≤ T / (3 / 2) := by
  rw [flyT01_eq, clampf_ge_one_iff]

theorem flyT01_bounds (T : K) : 0 ≤ flyT01 T ∧ flyT01 T ≤ 1 := by
  rw [flyT01_eq]
  exact clampf_bounds _ 0 1 (by norm_num)

theorem flyT01_mono {T1 T2 : K} (h : T1 ≤ T2) : flyT01 T1 ≤ flyT01 T2 := by
  rw [flyT01_eq, flyT01_eq]
  apply clampf_mono
  exact div_le_div_of_nonneg_right h (by norm_num)

theorem smoothstep_mono {a b : K} (ha : 0 ≤ a) (hab : a ≤ b) (hb : b ≤ 1) :
    smoothstep a ≤ smoothstep b := by
  unfold smoothstep
  have hb0 : 0 ≤ b := le_trans ha hab
  have ha1 : a ≤ 1 := le_trans hab hb
  nlinarith [mul_nonneg ha hb0, mul_nonneg ha (sub_nonneg.mpr ha1),
    mul_nonneg hb0 (sub_nonneg.mpr hb), mul_nonneg (sub_nonneg.mpr hab) ha,
    mul_nonneg (sub_nonneg.mpr hab) hb0, mul_nonneg (sub_nonneg.mpr hab) (sub_nonneg.mpr ha1),
    mul_nonneg (sub_nonneg.mpr hab) (sub_nonneg.mpr hb),
    mul_nonneg (mul_nonneg (sub_nonneg.mpr hab) ha) (sub_nonneg.mpr ha1),
    mul_nonneg (mul_nonneg (sub_nonneg.mpr hab) hb0) (sub_nonneg.mpr hb),
    mul_nonneg (mul_nonneg (sub_nonneg.mpr hab) ha) (sub_nonneg.mpr hb),
    mul_nonneg (mul_nonneg (sub_nonneg.mpr hab) hb0) (sub_nonneg.mpr ha1)]

theorem smoothstep_bounds {t : K} (h0 : 0 ≤ t) (h1 : t ≤ 1) :
    0 ≤ smoothstep t ∧ smoothstep t ≤ 1 := by
  have hz : smoothstep (0 : K) = 0 := by unfold smoothstep; ring
  have ho : smoothstep (1 : K) = 1 := by unfold smoothstep; ring
  constructor
  · rw [← hz]; exact smoothstep_mono le_rfl h0 h1
  · rw [← ho]; exact smoothstep_mono h0 h1 le_rfl

/-- The `SoulFlyIn` branch in terms of `flyT01` and `smoothstep`. -/
theorem updateSoulFlyIn_eq (dt : K) (g : Game K) :
    updateSoulFlyIn dt g =
      if flyT01 (g.soulFlyT + dt) ≥ 1 then
        startBattlePhase { g with
          soulFlyT := g.soulFlyT + dt, soul := { g.soul with pos := g.soulFlyTarget } }
      else
        { g with
          soulFlyT := g.soulFlyT + dt
          soul := { g.soul with
            pos := g.soulFlyStart
              + (g.soulFlyTarget - g.soulFlyStart) * smoothstep (flyT01 (g.soulFlyT + dt)) } } :=
  rfl

end Fly

section Fly2

variable {K : Type} [LinearOrderedField K]

theorem flyInv_init : FlyInv (init : Game K) := by
  simp [FlyInv, init]

theorem boxCentre_eq (soul : Soul K) : boxCentre soul = ⟨443, 253⟩ := by
  simp only [boxCentre, battleBox, leftOf, topOf, Soul.size]
  norm_num

theorem lerp_one (a b : Vector2f K) : a + (b - a) * (1 : K) = b := by
  obtain ⟨ax, ay⟩ := a
  obtain ⟨bx, b_y⟩ := b
  show (⟨ax + (bx - ax) * 1, ay + (b_y - ay) * 1⟩ : Vector2f K) = ⟨bx, b_y⟩
  congr 1 <;> ring

variable [FloorRing K]

theorem tick_soulFlyIn (sqrtf : K → K) (g : Game K) (inp : Input K)
    (hm : g.mode = GameMode.SoulFlyIn) : tick sqrtf g inp = updateSoulFlyIn (tickDt inp) g := by
  simp only [tick, hm]

theorem flyInv_tick (sqrtf : K → K) (g : Game K) (inp : Input K) (h : FlyInv g) :
    FlyInv (tick sqrtf g inp) := by
  unfold FlyInv at h ⊢
  unfold tick
  cases hm : g.mode <;> simp only [hm] at h <;> simp only []
  · simp only [updateOverworld, encounterCheck]
    split_ifs <;> simp_all
  · simp only [updateEncounterMenu, startSoulFlyIn]
    split_ifs <;> simp_all [flyStart, boxCentre, Soul.size, Soul.maxHp]
  · rw [updateSoulFlyIn_eq]
    split_ifs <;> simp_all [startBattlePhase, flyStart, boxCentre, Soul.size, Soul.maxHp]
  · simp only [updateBattle]
    intro hc
    split_ifs at hc
    simp_all
  · simp only [updateAttackTurn]
    split_ifs <;> simp_all
  · simp only [updateDamageMsg, leaveDamageMsg, startBattlePhase]
    split_ifs <;> simp_all
  · simp only [updateEnemyDefeated]
    split_ifs <;> simp_all
  · simp only [updateVictory]
    split_ifs <;> simp_all
  · simp only [updateGameOver]
    split_ifs <;> simp_all

theorem flyInv_reachable (sqrtf : K → K) (g : Game K) (h : Reachable sqrtf g) : FlyInv g := by
  induction h with
  | start => exact flyInv_init
  | step g inp _ ih => exact flyInv_tick sqrtf g inp ih

/-! ## C11 -/

/-- C11: on a `SoulFlyIn` tick of a reachable state, with `T = soulFlyT + dt`: if
`T / 1.5 ≥ 1`, then after the tick the mode is `Battle`, the soul is exactly at the fly
target, which is the battle-box centre minus half the soul size, (443, 253), there is no
bullet, `spawnTimer = battleTime = 0` and the soul is not invulnerable; otherwise the
mode stays `SoulFlyIn` and the soul is at `start + (target - start) * e` with
`e = t * t * (3 - 2 * t)`, `t = clamp(T / 1.5, 0, 1)`.  Enemy hp and soul hp are not
changed by the tick; they are 100 and `maxHp`, so `Battle` is entered with these. -/
theorem fly_in_completion (sqrtf : K → K) (g : Game K) (inp : Input K)
    (h : Reachable sqrtf g) (hm : g.mode = GameMode.SoulFlyIn) :
    (1 ≤ (g.soulFlyT + tickDt inp) / (3 / 2) →
      (tick sqrtf g inp).mode = GameMode.Battle ∧
      (tick sqrtf g inp).soul.pos = g.soulFlyTarget ∧
      g.soulFlyTarget = boxCentre g.soul ∧
      (tick sqrtf g inp).soul.pos = ⟨443, 253⟩ ∧
      (tick sqrtf g inp).bullets = [] ∧
      (tick sqrtf g inp).spawnTimer = 0 ∧
      (tick sqrtf g inp).battleTime = 0 ∧
      (tick sqrtf g inp).soul.invuln = false) ∧
    (¬ 1 ≤ (g.soulFlyT + tickDt inp) / (3 / 2) →
      (tick sqrtf g inp).mode = GameMode.SoulFlyIn ∧
      (tick sqrtf g inp).soul.pos =
        g.soulFlyStart + (g.soulFlyTarget - g.soulFlyStart)
          * smoothstep (clampf ((g.soulFlyT + tickDt inp) / (3 / 2)) 0 1)) ∧
    (tick sqrtf g inp).enemyHp = g.enemyHp ∧
    (tick sqrtf g inp).soul.hp = g.soul.hp ∧
    (tick sqrtf g inp).enemyHp = 100 ∧
    (tick sqrtf g inp).soul.hp = (tick sqrtf g inp).soul.maxHp := by
  obtain ⟨_, htarget, hehp, hshp⟩ := flyInv_reachable sqrtf g h hm
  rw [tick_soulFlyIn sqrtf g inp hm, updateSoulFlyIn_eq]
  by_cases hT : 1 ≤ (g.soulFlyT + tickDt inp) / (3 / 2)
  · have hge : flyT01 (g.soulFlyT + tickDt inp) ≥ 1 := (flyT01_ge_one_iff _).mpr hT
    rw [if_pos hge]
    refine ⟨fun _ => ⟨rfl, rfl, htarget, ?_, rfl, rfl, rfl, rfl⟩, fun hn => absurd hT hn,
      rfl, rfl, hehp, hshp⟩
    show g.soulFlyTarget = _
    rw [htarget, boxCentre_eq]
  · have hlt : ¬ flyT01 (g.soulFlyT + tickDt inp) ≥ 1 :=
      fun hc => hT ((flyT01_ge_one_iff _).mp hc)
    rw [if_neg hlt]
    refine ⟨fun hc => absurd hc hT, fun _ => ⟨hm, ?_⟩, rfl, rfl, hehp, hshp⟩
    show _ = g.soulFlyStart + (g.soulFlyTarget - g.soulFlyStart) * smoothstep _
    rw [flyT01_eq]

/-! ## C12 -/

/-- C12: the easing `e(t) = t * t * (3 - 2 * t)` applied to `t = clamp(T / 1.5, 0, 1)`
satisfies `e(0) = 0`, `e(1) = 1`, `0 ≤ e ≤ 1` for every `T`, and is monotone in `T`;
and after every `SoulFlyIn` tick of a reachable state the soul is at
`start + (target - start) * e` for the player-derived start, the battle-box centre
target and `e` taken at the new `soulFlyT`, so it lies on the segment between the two
and its progress `e` never decreases as `soulFlyT` grows. -/
theorem easing_monotone (sqrtf : K → K) :
    smoothstep (0 : K) = 0 ∧ smoothstep (1 : K) = 1 ∧
    (∀ T : K, flyT01 T = clampf (T / (3 / 2)) 0 1) ∧
    (∀ T : K, 0 ≤ smoothstep (flyT01 T) ∧ smoothstep (flyT01 T) ≤ 1) ∧
    (∀ T1 T2 : K, T1 ≤ T2 → smoothstep (flyT01 T1) ≤ smoothstep (flyT01 T2)) ∧
    (∀ (g : Game K) (inp : Input K), Reachable sqrtf g → g.mode = GameMode.SoulFlyIn →
      (tick sqrtf g inp).soulFlyT = g.soulFlyT + tickDt inp ∧
      (tick sqrtf g inp).soul.pos =
        flyStart g.p g.soul + (boxCentre g.soul - flyStart g.p g.soul)
          * smoothstep (flyT01 (tick sqrtf g inp).soulFlyT)) := by
  refine ⟨by unfold smoothstep; ring, by unfold smoothstep; ring, flyT01_eq, ?_, ?_, ?_⟩
  · intro T
    exact smoothstep_bounds (flyT01_bounds T).1 (flyT01_bounds T).2
  · intro T1 T2 h12
    exact smoothstep_mono (flyT01_bounds T1).1 (flyT01_mono h12) (flyT01_bounds T2).2
  · intro g inp h hm
    obtain ⟨hstart, htarget, _, _⟩ := flyInv_reachable sqrtf g h hm
    rw [tick_soulFlyIn sqrtf g inp hm, updateSoulFlyIn_eq]
    split_ifs with hge
    · refine ⟨rfl, ?_⟩
      have h1 : flyT01 (g.soulFlyT + tickDt inp) = 1 :=
        le_antisymm (flyT01_bounds _).2 hge
      show g.soulFlyTarget = _ + _ * smoothstep (flyT01 (g.soulFlyT + tickDt inp))
      rw [h1, htarget]
      have : smoothstep (1 : K) = 1 := by unfold smoothstep; ring
      rw [this, lerp_one]
    · refine ⟨rfl, ?_⟩
      show g.soulFlyStart + _ = _
      rw [hstart, htarget]

end Fly2

/-- The last fly-in tick of the sample sessions, by evaluation of the 77 ticks. -/
theorem lastFlyTick_facts :
    lastFlyTick.mode = GameMode.SoulFlyIn ∧ lastFlyTick.soulFlyT + tickDt (idle 0) = 3 / 2 ∧
    lastFlyTick.p.pos = ⟨615, 260⟩ := by
  decide!

/-- Witness of C11: the 30th fly-in tick of the sample sessions reaches `T = 1.5` and
enters `Battle` with the soul at (443, 253). -/
theorem fly_in_completion_witness :
    lastFlyTick.mode = GameMode.SoulFlyIn ∧
    (tick sqrtNewton lastFlyTick (idle 0)).mode = GameMode.Battle ∧
    (tick sqrtNewton lastFlyTick (idle 0)).soul.pos = ⟨443, 253⟩ ∧
    (tick sqrtNewton lastFlyTick (idle 0)).enemyHp = 100 :=
  have h := fly_in_completion sqrtNewton lastFlyTick (idle 0)
    (reachable_session sqrtNewton (intoBattle.take 77)) lastFlyTick_facts.1
  have h1 := h.1 (by rw [lastFlyTick_facts.2.1]; norm_num)
  ⟨lastFlyTick_facts.1, h1.1, h1.2.2.2.1, h.2.2.2.2.1⟩

/-- Witness of C12: the eased progress at `T = 1/2` is at most that at `T = 1`, and the
soul is on the segment after the last fly-in tick of the sample sessions. -/
theorem easing_monotone_witness :
    smoothstep (flyT01 (1 / 2 : ℚ)) ≤ smoothstep (flyT01 (1 : ℚ)) ∧
    (tick sqrtNewton lastFlyTick (idle 0)).soul.pos =
      flyStart lastFlyTick.p lastFlyTick.soul
        + (boxCentre lastFlyTick.soul - flyStart lastFlyTick.p lastFlyTick.soul)
          * smoothstep (flyT01 (tick sqrtNewton lastFlyTick (idle 0)).soulFlyT) :=
  ⟨(easing_monotone sqrtNewton).2.2.2.2.1 (1 / 2) 1 (by norm_num),
    ((easing_monotone sqrtNewton).2.2.2.2.2 lastFlyTick (idle 0)
      (reachable_session sqrtNewton (intoBattle.take 77)) lastFlyTick_facts.1).2⟩

section Moves

variable {K : Type} [LinearOrderedField K]

/-! ## Movement of the soul and of the player -/

theorem invulnDecay_pos (dt : K) (soul : Soul K) : (invulnDecay dt soul).pos = soul.pos := by
  simp only [invulnDecay]
  split_ifs <;> rfl

theorem hitLoop_pos (sr : FloatRect K) (soul : Soul K) (bs : List (Bullet K)) :
    (hitLoop sr soul bs).pos = soul.pos := by
  rcases hitLoop_cases sr soul bs with h | h <;> rw [h]

theorem collisionCheck_pos (soul : Soul K) (bs : List (Bullet K)) :
    (collisionCheck soul bs).pos = soul.pos := by
  unfold collisionCheck
  split_ifs
  · exact hitLoop_pos _ _ _
  · rfl

theorem moveSoul_bounds (sqrtf : K → K) (dt : K) (inp : Input K) (soul : Soul K) :
    260 ≤ (moveSoul sqrtf dt inp soul).pos.x ∧ (moveSoul sqrtf dt inp soul).pos.x ≤ 626 ∧
    140 ≤ (moveSoul sqrtf dt inp soul).pos.y ∧ (moveSoul sqrtf dt inp soul).pos.y ≤ 366 := by
  have hx := clampf_bounds (soul.pos + normalizeMove sqrtf (rawMove inp) * soul.speed * dt).x
    (260 : K) 626 (by norm_num)
  have hy := clampf_bounds (soul.pos + normalizeMove sqrtf (rawMove inp) * soul.speed * dt).y
    (140 : K) 366 (by norm_num)
  have e1 : leftOf (battleBox : FloatRect K) = 260 := rfl
  have e2 : rightOf (battleBox : FloatRect K) - soul.size.x = 626 := by
    simp only [rightOf, battleBox, Soul.size]; norm_num
  have e3 : topOf (battleBox : FloatRect K) = 140 := rfl
  have e4 : bottomOf (battleBox : FloatRect K) - soul.size.y = 366 := by
    simp only [bottomOf, battleBox, Soul.size]; norm_num
  simp only [moveSoul, e1, e2, e3, e4]
  exact ⟨hx.1, hx.2, hy.1, hy.2⟩

/-- The raw input vector has each axis in {-1, 0, 1}. -/
theorem rawMove_cases (inp : Input K) :
    ((rawMove inp).x = -1 ∨ (rawMove inp).x = 0 ∨ (rawMove inp).x = 1) ∧
    ((rawMove inp).y = -1 ∨ (rawMove inp).y = 0 ∨ (rawMove inp).y = 1) := by
  obtain ⟨w, s, a, d, _, _, _, _, _, _⟩ := inp
  cases w <;> cases s <;> cases a <;> cases d <;> simp [rawMove]

/-- With an exact square root, the normalised input vector of a non-zero raw vector
has squared length 1. -/
theorem normalizeMove_unit (sqrtf : K → K) (hsq : ∀ x : K, 0 ≤ x → sqrtf x * sqrtf x = x)
    (inp : Input K) (hne : (rawMove inp).x ≠ 0 ∨ (rawMove inp).y ≠ 0) :
    (normalizeMove sqrtf (rawMove inp)).x * (normalizeMove sqrtf (rawMove inp)).x
      + (normalizeMove sqrtf (rawMove inp)).y * (normalizeMove sqrtf (rawMove inp)).y = 1 := by
  have hpos : 0 < (rawMove inp).x * (rawMove inp).x + (rawMove inp).y * (rawMove inp).y := by
    rcases hne with h | h
    · have := mul_self_pos.mpr h
      nlinarith [mul_self_nonneg (rawMove inp).y]
    · have := mul_self_pos.mpr h
      nlinarith [mul_self_nonneg (rawMove inp).x]
  have hs := hsq _ hpos.le
  have hs0 : sqrtf ((rawMove inp).x * (rawMove inp).x + (rawMove inp).y * (rawMove inp).y) ≠ 0 := by
    intro h0
    rw [h0] at hs
    linarith
  unfold normalizeMove
  rw [if_pos hne]
  show (rawMove inp).x / _ * ((rawMove inp).x / _) + (rawMove inp).y / _ * ((rawMove inp).y / _) = 1
  rw [div_mul_div_comm, div_mul_div_comm, hs, ← add_div]
  exact div_self hpos.ne'

theorem candidate_sub (move : Vector2f K) (dt : K) (p : PlayerOverworld K) :
    (candidate move dt p - p.pos).x = move.x * p.speed * dt ∧
    (candidate move dt p - p.pos).y = move.y * p.speed * dt := by
  constructor
  · show p.pos.x + move.x * p.speed * dt - p.pos.x = _
    ring
  · show p.pos.y + move.y * p.speed * dt - p.pos.y = _
    ring

theorem stepPlayer_free (move : Vector2f K) (dt : K) (p : PlayerOverworld K)
    (h : ((walls : List (FloatRect K)).any fun w =>
      intersects ⟨⟨(candidate move dt p).x, (candidate move dt p).y⟩, ⟨p.size.x, p.size.y⟩⟩ w)
        = false) :
    (stepPlayer move dt p).pos = candidate move dt p := by
  unfold stepPlayer
  simp only []
  rw [if_pos]
  · rfl
  · simpa [candidate] using h

theorem updateOverworld_p (sqrtf : K → K) (dt : K) (inp : Input K) (g : Game K) :
    (updateOverworld sqrtf dt inp g).p = stepPlayer (normalizeMove sqrtf (rawMove inp)) dt g.p := by
  simp only [updateOverworld, encounterCheck]
  split_ifs <;> rfl

variable [FloorRing K]

theorem tick_overworld (sqrtf : K → K) (g : Game K) (inp : Input K)
    (hm : g.mode = GameMode.Overworld) :
    tick sqrtf g inp = updateOverworld sqrtf (tickDt inp) inp g := by
  simp only [tick, hm]

/-! ## C14 -/

/-- C14: after every `Battle` tick, whatever the soul position before, the movement
keys, the elapsed time and the invulnerability state, the soul position satisfies
`left(box) ≤ x ≤ right(box) - size.x` and `top(box) ≤ y ≤ bottom(box) - size.y`, that is
260 ≤ x ≤ 626 and 140 ≤ y ≤ 366: the soul hitbox lies inside the battle box. -/
theorem soul_in_box (sqrtf : K → K) (g : Game K) (inp : Input K)
    (hm : g.mode = GameMode.Battle) :
    (leftOf battleBox ≤ (tick sqrtf g inp).soul.pos.x ∧
      (tick sqrtf g inp).soul.pos.x ≤ rightOf battleBox - (tick sqrtf g inp).soul.size.x ∧
      topOf battleBox ≤ (tick sqrtf g inp).soul.pos.y ∧
      (tick sqrtf g inp).soul.pos.y ≤ bottomOf battleBox - (tick sqrtf g inp).soul.size.y) ∧
    (260 ≤ (tick sqrtf g inp).soul.pos.x ∧ (tick sqrtf g inp).soul.pos.x ≤ 626 ∧
      140 ≤ (tick sqrtf g inp).soul.pos.y ∧ (tick sqrtf g inp).soul.pos.y ≤ 366) ∧
    ((tick sqrtf g inp).soul.pos.x + (tick sqrtf g inp).soul.size.x ≤ rightOf battleBox ∧
      (tick sqrtf g inp).soul.pos.y + (tick sqrtf g inp).soul.size.y ≤ bottomOf battleBox) := by
  have hpos : (tick sqrtf g inp).soul.pos = (moveSoul sqrtf (tickDt inp) inp g.soul).pos := by
    rw [tick_battle_soul sqrtf g inp hm, collisionCheck_pos]
    unfold soulAtCheck
    rw [invulnDecay_pos]
  obtain ⟨h1, h2, h3, h4⟩ := moveSoul_bounds sqrtf (tickDt inp) inp g.soul
  rw [hpos]
  simp only [leftOf, rightOf, topOf, bottomOf, battleBox, Soul.size]
  refine ⟨⟨h1, ?_, h3, ?_⟩, ⟨h1, h2, h3, h4⟩, ⟨?_, ?_⟩⟩ <;> linarith

/-! ## C15 -/

/-- C15: with an exact square root (`sqrtf x * sqrtf x = x` for `x ≥ 0`), in an
`Overworld` tick the candidate displacement `d = next - p.pos` of a raw move vector with
both axes non-zero satisfies `d.x² + d.y² = (speed * dt)²`, as does that of any
non-zero raw move vector, a single-axis one included; and when the candidate position is
not blocked by a wall, the player is at the candidate position after the tick. -/
theorem no_diagonal_speedup (sqrtf : K → K) (hsq : ∀ x : K, 0 ≤ x → sqrtf x * sqrtf x = x)
    (g : Game K) (inp : Input K) (hm : g.mode = GameMode.Overworld) :
    ((rawMove inp).x ≠ 0 → (rawMove inp).y ≠ 0 →
      (candidate (normalizeMove sqrtf (rawMove inp)) (tickDt inp) g.p - g.p.pos).x
          * (candidate (normalizeMove sqrtf (rawMove inp)) (tickDt inp) g.p - g.p.pos).x
        + (candidate (normalizeMove sqrtf (rawMove inp)) (tickDt inp) g.p - g.p.pos).y
          * (candidate (normalizeMove sqrtf (rawMove inp)) (tickDt inp) g.p - g.p.pos).y
        = (g.p.speed * tickDt inp) * (g.p.speed * tickDt inp)) ∧
    ((rawMove inp).x ≠ 0 ∨ (rawMove inp).y ≠ 0 →
      (candidate (normalizeMove sqrtf (rawMove inp)) (tickDt inp) g.p - g.p.pos).x
          * (candidate (normalizeMove sqrtf (rawMove inp)) (tickDt inp) g.p - g.p.pos).x
        + (candidate (normalizeMove sqrtf (rawMove inp)) (tickDt inp) g.p - g.p.pos).y
          * (candidate (normalizeMove sqrtf (rawMove inp)) (tickDt inp) g.p - g.p.pos).y
        = (g.p.speed * tickDt inp) * (g.p.speed * tickDt inp)) ∧
    (((walls : List (FloatRect K)).any fun w =>
        intersects
          ⟨⟨(candidate (normalizeMove sqrtf (rawMove inp)) (tickDt inp) g.p).x,
            (candidate (normalizeMove sqrtf (rawMove inp)) (tickDt inp) g.p).y⟩,
           ⟨g.p.size.x, g.p.size.y⟩⟩ w) = false →
      (tick sqrtf g inp).p.pos = candidate (normalizeMove sqrtf (rawMove inp)) (tickDt inp) g.p) := by
  have key : (rawMove inp).x ≠ 0 ∨ (rawMove inp).y ≠ 0 →
      (candidate (normalizeMove sqrtf (rawMove inp)) (tickDt inp) g.p - g.p.pos).x
          * (candidate (normalizeMove sqrtf (rawMove inp)) (tickDt inp) g.p - g.p.pos).x
        + (candidate (normalizeMove sqrtf (rawMove inp)) (tickDt inp) g.p - g.p.pos).y
          * (candidate (normalizeMove sqrtf (rawMove inp)) (tickDt inp) g.p - g.p.pos).y
        = (g.p.speed * tickDt inp) * (g.p.speed * tickDt inp) := by
    intro hne
    have hu := normalizeMove_unit sqrtf hsq inp hne
    obtain ⟨hx, hy⟩ := candidate_sub (normalizeMove sqrtf (rawMove inp)) (tickDt inp) g.p
    rw [hx, hy]
    linear_combination (g.p.speed * tickDt inp) * (g.p.speed * tickDt inp) * hu
  refine ⟨fun hx _ => key (Or.inl hx), key, ?_⟩
  intro hfree
  rw [tick_overworld sqrtf g inp hm, updateOverworld_p]
  exact stepPlayer_free _ _ _ hfree

end Moves

/-- Witness of C14: a `Battle` tick with `A` held keeps the soul inside the box. -/
theorem soul_in_box_witness :
    260 ≤ (tick sqrtNewton twoBullets { idle 0 with keyA := true }).soul.pos.x ∧
    (tick sqrtNewton twoBullets { idle 0 with keyA := true }).soul.pos.x ≤ 626 ∧
    140 ≤ (tick sqrtNewton twoBullets { idle 0 with keyA := true }).soul.pos.y ∧
    (tick sqrtNewton twoBullets { idle 0 with keyA := true }).soul.pos.y ≤ 366 :=
  (soul_in_box sqrtNewton twoBullets { idle 0 with keyA := true } rfl).2.1

/-- Witness of C15: over the reals with `Real.sqrt`, the first tick with `W` and `D`
held has a candidate displacement of squared length `(speed * dt)²`. -/
theorem no_diagonal_speedup_witness :
    (candidate (normalizeMove Real.sqrt (rawMove (holdWD : Input ℝ))) (tickDt (holdWD : Input ℝ))
          (init : Game ℝ).p - (init : Game ℝ).p.pos).x
      * (candidate (normalizeMove Real.sqrt (rawMove (holdWD : Input ℝ)))
          (tickDt (holdWD : Input ℝ)) (init : Game ℝ).p - (init : Game ℝ).p.pos).x
    + (candidate (normalizeMove Real.sqrt (rawMove (holdWD : Input ℝ))) (tickDt (holdWD : Input ℝ))
          (init : Game ℝ).p - (init : Game ℝ).p.pos).y
      * (candidate (normalizeMove Real.sqrt (rawMove (holdWD : Input ℝ)))
          (tickDt (holdWD : Input ℝ)) (init : Game ℝ).p - (init : Game ℝ).p.pos).y
    = ((init : Game ℝ).p.speed * tickDt (holdWD : Input ℝ))
      * ((init : Game ℝ).p.speed * tickDt (holdWD : Input ℝ)) :=
  (no_diagonal_speedup Real.sqrt (fun _ hx => Real.mul_self_sqrt hx) (init : Game ℝ) holdWD
    rfl).1 (by simp [rawMove, holdWD]) (by simp [rawMove, holdWD])

section Bullets

variable {K : Type} [LinearOrderedField K]

/-! ## Spawning and integrating bullets -/

theorem tmod_natCast (r n : ℕ) : Int.tmod (r : ℤ) (n : ℤ) = ((r % n : ℕ) : ℤ) := by
  rw [Int.tmod_eq_emod (Int.natCast_nonneg r) (Int.natCast_nonneg n)]
  norm_cast

theorem integrateBullets_alive (dt : K) (bs : List (Bullet K)) :
    ∀ b ∈ integrateBullets dt bs, b.alive = true := by
  intro b hb
  unfold integrateBullets at hb
  exact (List.mem_filter.mp hb).2

theorem integrateBullets_eq (dt : K) (bs : List (Bullet K)) (h : ∀ b ∈ bs, b.alive = true) :
    integrateBullets dt bs =
      (bs.map fun b => b.update dt).filter
        fun b => decide (b.pos.y ≤ bottomOf (battleBox : FloatRect K) + 40) := by
  unfold integrateBullets
  induction bs with
  | nil => rfl
  | cons b rest ih =>
    have hb : b.alive = true := h b (List.mem_cons_self _ _)
    have hrest := ih (fun c hc => h c (List.mem_cons_of_mem _ hc))
    simp only [List.map_cons, List.filter_cons]
    rw [hrest]
    by_cases hy : (b.update dt).pos.y > bottomOf (battleBox : FloatRect K) + 40
    · have hn : ¬ (b.update dt).pos.y ≤ bottomOf (battleBox : FloatRect K) + 40 := not_le.mpr hy
      simp [hy, hn]
    · have hle : (b.update dt).pos.y ≤ bottomOf (battleBox : FloatRect K) + 40 := not_lt.mp hy
      have ha : (b.update dt).alive = true := hb
      simp [hy, hle, ha]

theorem aliveInv_init : AliveInv (init : Game K) := by
  simp [AliveInv, init]

variable [FloorRing K]

theorem spawnStep_append (battleStage : Int) (rand : Nat → Nat) (t : K)
    (bullets : List (Bullet K)) :
    spawnStep battleStage rand t bullets =
      ((spawnStep battleStage rand t []).1, bullets ++ (spawnStep battleStage rand t []).2) := by
  unfold spawnStep
  split_ifs <;> simp

theorem toInt_span :
    toInt ((rightOf (battleBox : FloatRect K) - 12) - (leftOf (battleBox : FloatRect K) + 12) + 1)
      = 357 := by
  have h : (rightOf (battleBox : FloatRect K) - 12) - (leftOf (battleBox : FloatRect K) + 12) + 1
      = ((357 : ℤ) : K) := by
    simp only [rightOf, leftOf, battleBox]
    norm_num
  rw [h]
  simp [toInt]

theorem spawnBullet_facts (base : K) (range rx rv : ℕ) :
    (spawnBullet base (range : ℤ) rx rv).pos.x = 272 + ((rx % 357 : ℕ) : K) ∧
    272 ≤ (spawnBullet base (range : ℤ) rx rv).pos.x ∧
    (spawnBullet base (range : ℤ) rx rv).pos.x ≤ 628 ∧
    (spawnBullet base (range : ℤ) rx rv).pos.y = 130 ∧
    (spawnBullet base (range : ℤ) rx rv).vel.x = 0 ∧
    (spawnBullet base (range : ℤ) rx rv).vel.y = base + ((rv % range : ℕ) : K) ∧
    (spawnBullet base (range : ℤ) rx rv).r = 6 ∧
    (spawnBullet base (range : ℤ) rx rv).alive = true := by
  have hx : (spawnBullet base (range : ℤ) rx rv).pos.x = 272 + ((rx % 357 : ℕ) : K) := by
    simp only [spawnBullet, toInt_span]
    have : Int.tmod (rx : ℤ) 357 = ((rx % 357 : ℕ) : ℤ) := tmod_natCast rx 357
    rw [this]
    simp only [leftOf, battleBox, Int.cast_natCast]
    norm_num
  have hlt : rx % 357 < 357 := Nat.mod_lt _ (by norm_num)
  have hle : ((rx % 357 : ℕ) : K) ≤ 356 := by
    have : rx % 357 ≤ 356 := by omega
    exact_mod_cast this
  have h0 : (0 : K) ≤ ((rx % 357 : ℕ) : K) := Nat.cast_nonneg _
  refine ⟨hx, ?_, ?_, ?_, rfl, ?_, rfl, rfl⟩
  · rw [hx]; linarith
  · rw [hx]; linarith
  · simp only [spawnBullet, topOf, battleBox]
    norm_num
  · simp only [spawnBullet, tmod_natCast, Int.cast_natCast]

theorem aliveInv_tick (sqrtf : K → K) (g : Game K) (inp : Input K) (h : AliveInv g) :
    AliveInv (tick sqrtf g inp) := by
  unfold AliveInv at h ⊢
  unfold tick
  cases hm : g.mode <;> simp only []
  · simp only [updateOverworld, encounterCheck]
    split_ifs <;> exact h
  · simp only [updateEncounterMenu, startSoulFlyIn]
    split_ifs <;> first | exact h | simp
  · rw [updateSoulFlyIn_eq]
    split_ifs <;> first | exact h | simp [startBattlePhase]
  · simp only [updateBattle]
    split_ifs
    · simp
    · exact integrateBullets_alive _ _
  · simp only [updateAttackTurn]
    split_ifs <;> exact h
  · simp only [updateDamageMsg, leaveDamageMsg, startBattlePhase]
    split_ifs <;> first | exact h | simp
  · simp only [updateEnemyDefeated]
    split_ifs <;> exact h
  · simp only [updateVictory]
    split_ifs <;> exact h
  · simp only [updateGameOver]
    split_ifs <;> exact h

theorem aliveInv_reachable (sqrtf : K → K) (g : Game K) (h : Reachable sqrtf g) :
    AliveInv g := by
  induction h with
  | start => exact aliveInv_init
  | step g inp _ ih => exact aliveInv_tick sqrtf g inp ih

theorem tick_battle_bullets (sqrtf : K → K) (g : Game K) (inp : Input K)
    (hm : g.mode = GameMode.Battle) :
    (tick sqrtf g inp).bullets =
      if g.battleTime + tickDt inp ≥ 12 then [] else bulletsAtCheck inp g := by
  rw [tick_battle sqrtf g inp hm]
  rfl

theorem tick_battle_spawnTimer (sqrtf : K → K) (g : Game K) (inp : Input K)
    (hm : g.mode = GameMode.Battle) :
    (tick sqrtf g inp).spawnTimer =
      (spawnStep g.battleStage inp.rand (g.spawnTimer + tickDt inp) g.bullets).1 := by
  rw [tick_battle sqrtf g inp hm]
  rfl

end Bullets

section BulletClaims

variable {K : Type} [LinearOrderedField K] [FloorRing K]

/-! ## C17 -/

/-- C17: for all results `rx`, `rv` of `rand()`, the bullet spawned at stage 1 has
`x = 272 + rx mod 357` with `272 = left(box) + 12`, so `272 ≤ x ≤ 628 = right(box) - 12`,
`y = 130 = top(box) - 10`, horizontal velocity 0, radius 6 and downward speed
`260 + rv mod 140`, in [260, 399]; at stage 2 the same with downward speed
`320 + rv mod 180`, in [320, 499].  In a `Battle` tick, at stage 1 with
`spawnTimer + dt ≥ 0.25` exactly one such bullet is pushed, at stage 2 with
`spawnTimer + dt ≥ 0.18` exactly two, and `spawnTimer` is reset to 0; otherwise none is
pushed and `spawnTimer` is `spawnTimer + dt`. -/
theorem bullet_spawn_bounds (sqrtf : K → K) :
    (leftOf (battleBox : FloatRect K) + 12 = 272 ∧ rightOf (battleBox : FloatRect K) - 12 = 628 ∧
      topOf (battleBox : FloatRect K) - 10 = 130) ∧
    (∀ rx rv : ℕ,
      (spawnBullet (260 : K) 140 rx rv).pos.x = 272 + ((rx % 357 : ℕ) : K) ∧
      272 ≤ (spawnBullet (260 : K) 140 rx rv).pos.x ∧
      (spawnBullet (260 : K) 140 rx rv).pos.x ≤ 628 ∧
      (spawnBullet (260 : K) 140 rx rv).pos.y = 130 ∧
      (spawnBullet (260 : K) 140 rx rv).vel.x = 0 ∧
      (spawnBullet (260 : K) 140 rx rv).r = 6 ∧
      (spawnBullet (260 : K) 140 rx rv).vel.y = 260 + ((rv % 140 : ℕ) : K) ∧
      260 ≤ (spawnBullet (260 : K) 140 rx rv).vel.y ∧
      (spawnBullet (260 : K) 140 rx rv).vel.y ≤ 399) ∧
    (∀ rx rv : ℕ,
      (spawnBullet (320 : K) 180 rx rv).pos.x = 272 + ((rx % 357 : ℕ) : K) ∧
      272 ≤ (spawnBullet (320 : K) 180 rx rv).pos.x ∧
      (spawnBullet (320 : K) 180 rx rv).pos.x ≤ 628 ∧
      (spawnBullet (320 : K) 180 rx rv).pos.y = 130 ∧
      (spawnBullet (320 : K) 180 rx rv).vel.x = 0 ∧
      (spawnBullet (320 : K) 180 rx rv).r = 6 ∧
      (spawnBullet (320 : K) 180 rx rv).vel.y = 320 + ((rv % 180 : ℕ) : K) ∧
      320 ≤ (spawnBullet (320 : K) 180 rx rv).vel.y ∧
      (spawnBullet (320 : K) 180 rx rv).vel.y ≤ 499) ∧
    (∀ (g : Game K) (inp : Input K), g.mode = GameMode.Battle →
      (g.battleStage = 1 → g.spawnTimer + tickDt inp ≥ 1 / 4 →
        bulletsAtCheck inp g = integrateBullets (tickDt inp)
          (g.bullets ++ [spawnBullet 260 140 (inp.rand 0) (inp.rand 1)]) ∧
        (tick sqrtf g inp).spawnTimer = 0) ∧
      (g.battleStage = 2 → g.spawnTimer + tickDt inp ≥ 9 / 50 →
        bulletsAtCheck inp g = integrateBullets (tickDt inp)
          (g.bullets ++ [spawnBullet 320 180 (inp.rand 0) (inp.rand 1),
            spawnBullet 320 180 (inp.rand 2) (inp.rand 3)]) ∧
        (tick sqrtf g inp).spawnTimer = 0) ∧
      ((g.battleStage = 1 ∧ ¬ g.spawnTimer + tickDt inp ≥ 1 / 4) ∨
          (g.battleStage = 2 ∧ ¬ g.spawnTimer + tickDt inp ≥ 9 / 50) →
        bulletsAtCheck inp g = integrateBullets (tickDt inp) g.bullets ∧
        (tick sqrtf g inp).spawnTimer = g.spawnTimer + tickDt inp)) := by
  refine ⟨⟨?_, ?_, ?_⟩, ?_, ?_, ?_⟩
  · simp only [leftOf, battleBox]; norm_num
  · simp only [rightOf, battleBox]; norm_num
  · simp only [topOf, battleBox]; norm_num
  · intro rx rv
    obtain ⟨h1, h2, h3, h4, h5, h6, h7, _⟩ := spawnBullet_facts (260 : K) 140 rx rv
    have hv : (spawnBullet (260 : K) 140 rx rv).vel.y = 260 + ((rv % 140 : ℕ) : K) := h6
    have hlt : rv % 140 < 140 := Nat.mod_lt _ (by norm_num)
    have hle : ((rv % 140 : ℕ) : K) ≤ 139 := by
      have : rv % 140 ≤ 139 := by omega
      exact_mod_cast this
    have h0 : (0 : K) ≤ ((rv % 140 : ℕ) : K) := Nat.cast_nonneg _
    refine ⟨h1, h2, h3, h4, h5, h7, hv, ?_, ?_⟩
    · rw [hv]; linarith
    · rw [hv]; linarith
  · intro rx rv
    obtain ⟨h1, h2, h3, h4, h5, h6, h7, _⟩ := spawnBullet_facts (320 : K) 180 rx rv
    have hv : (spawnBullet (320 : K) 180 rx rv).vel.y = 320 + ((rv % 180 : ℕ) : K) := h6
    have hlt : rv % 180 < 180 := Nat.mod_lt _ (by norm_num)
    have hle : ((rv % 180 : ℕ) : K) ≤ 179 := by
      have : rv % 180 ≤ 179 := by omega
      exact_mod_cast this
    have h0 : (0 : K) ≤ ((rv % 180 : ℕ) : K) := Nat.cast_nonneg _
    refine ⟨h1, h2, h3, h4, h5, h7, hv, ?_, ?_⟩
    · rw [hv]; linarith
    · rw [hv]; linarith
  · intro g inp hm
    rw [tick_battle_spawnTimer sqrtf g inp hm]
    unfold bulletsAtCheck
    unfold spawnStep
    refine ⟨?_, ?_, ?_⟩
    · intro hs ht
      rw [if_pos hs, if_pos ht]
      exact ⟨rfl, rfl⟩
    · intro hs ht
      rw [if_neg (by rw [hs]; decide), if_pos ht]
      constructor
      · show integrateBullets _ ((g.bullets ++ [_]) ++ [_]) = _
        rw [List.append_assoc]
        rfl
      · rfl
    · rintro (⟨hs, ht⟩ | ⟨hs, ht⟩)
      · rw [if_pos hs, if_neg ht]
        exact ⟨rfl, rfl⟩
      · rw [if_neg (by rw [hs]; decide), if_neg ht]
        exact ⟨rfl, rfl⟩

/-! ## C18 -/

/-- C18: in a `Battle` tick of a reachable state that does not reach 12 s, the live
collection after the tick is the previously live bullets followed by the bullets
spawned this tick, each with `pos` advanced by `vel * dt` (`x + vel.x * dt`,
`y + vel.y * dt`; velocity, radius and flag kept), filtered to those with
`pos.y ≤ bottom(box) + 40 = 420`, in the same order.  So every bullet in it has
`alive = true` and `y ≤ 420`, and is the advanced copy of a previously live or newly
spawned bullet; and a bullet whose advanced `y` exceeds 420 is not in it. -/
theorem bullet_integration (sqrtf : K → K) (g : Game K) (inp : Input K)
    (h : Reachable sqrtf g) (hm : g.mode = GameMode.Battle)
    (hlive : ¬ g.battleTime + tickDt inp ≥ 12) :
    (tick sqrtf g inp).bullets =
      ((g.bullets ++ (spawnStep g.battleStage inp.rand (g.spawnTimer + tickDt inp) []).2).map
        fun b => (⟨⟨b.pos.x + b.vel.x * tickDt inp, b.pos.y + b.vel.y * tickDt inp⟩,
          b.vel, b.r, b.alive⟩ : Bullet K)).filter
        (fun b => decide (b.pos.y ≤ bottomOf (battleBox : FloatRect K) + 40)) ∧
    bottomOf (battleBox : FloatRect K) + 40 = 420 ∧
    (∀ b ∈ (tick sqrtf g inp).bullets, b.alive = true ∧ b.pos.y ≤ 420) ∧
    (∀ b ∈ (tick sqrtf g inp).bullets,
      ∃ b0 ∈ g.bullets ++ (spawnStep g.battleStage inp.rand (g.spawnTimer + tickDt inp) []).2,
        b.pos.x = b0.pos.x + b0.vel.x * tickDt inp ∧
        b.pos.y = b0.pos.y + b0.vel.y * tickDt inp ∧
        b.vel = b0.vel ∧ b.r = b0.r) ∧
    (∀ b0 ∈ g.bullets ++ (spawnStep g.battleStage inp.rand (g.spawnTimer + tickDt inp) []).2,
      (b0.pos.y + b0.vel.y * tickDt inp ≤ 420 →
        (⟨⟨b0.pos.x + b0.vel.x * tickDt inp, b0.pos.y + b0.vel.y * tickDt inp⟩,
          b0.vel, b0.r, b0.alive⟩ : Bullet K) ∈ (tick sqrtf g inp).bullets) ∧
      (420 < b0.pos.y + b0.vel.y * tickDt inp →
        (⟨⟨b0.pos.x + b0.vel.x * tickDt inp, b0.pos.y + b0.vel.y * tickDt inp⟩,
          b0.vel, b0.r, b0.alive⟩ : Bullet K) ∉ (tick sqrtf g inp).bullets)) := by
  have h420 : bottomOf (battleBox : FloatRect K) + 40 = 420 := by
    simp only [bottomOf, battleBox]; norm_num
  have halive := aliveInv_reachable sqrtf g h
  have hspawned : ∀ b ∈ (spawnStep g.battleStage inp.rand (g.spawnTimer + tickDt inp)
      ([] : List (Bullet K))).2, b.alive = true := by
    intro b hb
    unfold spawnStep at hb
    split_ifs at hb <;> simp at hb
    · rw [hb]; rfl
    · rcases hb with hb | hb <;> rw [hb] <;> rfl
  have hall : ∀ b ∈ g.bullets ++ (spawnStep g.battleStage inp.rand (g.spawnTimer + tickDt inp)
      ([] : List (Bullet K))).2, b.alive = true := by
    intro b hb
    rcases List.mem_append.mp hb with hb | hb
    · exact halive b hb
    · exact hspawned b hb
  have heq : (tick sqrtf g inp).bullets =
      ((g.bullets ++ (spawnStep g.battleStage inp.rand (g.spawnTimer + tickDt inp) []).2).map
        fun b => (⟨⟨b.pos.x + b.vel.x * tickDt inp, b.pos.y + b.vel.y * tickDt inp⟩,
          b.vel, b.r, b.alive⟩ : Bullet K)).filter
        (fun b => decide (b.pos.y ≤ bottomOf (battleBox : FloatRect K) + 40)) := by
    rw [tick_battle_bullets sqrtf g inp hm, if_neg hlive]
    unfold bulletsAtCheck
    rw [spawnStep_append]
    exact integrateBullets_eq _ _ hall
  refine ⟨heq, h420, ?_, ?_, ?_⟩
  · intro b hb
    constructor
    · rw [tick_battle_bullets sqrtf g inp hm, if_neg hlive] at hb
      exact integrateBullets_alive _ _ b hb
    · rw [heq, List.mem_filter] at hb
      rw [← h420]
      exact of_decide_eq_true hb.2
  · intro b hb
    rw [heq, List.mem_filter, List.mem_map] at hb
    obtain ⟨⟨b0, hb0, hbe⟩, _⟩ := hb
    refine ⟨b0, hb0, ?_⟩
    rw [← hbe]
    exact ⟨rfl, rfl, rfl, rfl⟩
  · intro b0 hb0
    constructor
    · intro hy
      rw [heq, List.mem_filter]
      refine ⟨List.mem_map.mpr ⟨b0, hb0, rfl⟩, ?_⟩
      rw [h420]
      exact decide_eq_true hy
    · intro hy hmem
      rw [heq, List.mem_filter] at hmem
      have := of_decide_eq_true hmem.2
      rw [h420] at this
      exact absurd this (not_le.mpr hy)

end BulletClaims

/-- Witness of C17: from `spawnReady` (stage 1, `spawnTimer = 0.2`) a tick of 0.05 s
pushes one bullet and resets the timer. -/
theorem bullet_spawn_bounds_witness :
    bulletsAtCheck (idle 100) spawnReady = integrateBullets (tickDt (idle 100))
      (spawnReady.bullets ++ [spawnBullet 260 140 100 100]) ∧
    (tick sqrtNewton spawnReady (idle 100)).spawnTimer = 0 ∧
    (spawnBullet (260 : ℚ) 140 100 100).pos.x = 272 + ((100 % 357 : ℕ) : ℚ) :=
  have h := ((bullet_spawn_bounds sqrtNewton).2.2.2 spawnReady (idle 100) rfl).1 rfl
    (by decide!)
  ⟨h.1, h.2, ((bullet_spawn_bounds sqrtNewton).2.1 100 100).1⟩

/-- Witness of C18: from `beforeSweep`, with bullets at y = 407.5, 315, 222.5 moving
down at 370, the 20th battle tick spawns a bullet at y = 130, advances all four by
18.5 and removes the first (y = 426): the bullets left are at y = 333.5, 241, 148.5. -/
theorem bullet_integration_witness :
    beforeSweep.mode = GameMode.Battle ∧
    beforeSweep.bullets.map (fun b => (b.pos.x, b.pos.y, b.vel.x, b.vel.y)) =
      [(382, 815 / 2, 0, 370), (382, 315, 0, 370), (382, 445 / 2, 0, 370)] ∧
    (spawnStep beforeSweep.battleStage (idle 110).rand
        (beforeSweep.spawnTimer + tickDt (idle 110)) ([] : List (Bullet ℚ))).2.map
      (fun b => (b.pos.x, b.pos.y, b.vel.x, b.vel.y)) = [(382, 130, 0, 370)] ∧
    (tick sqrtNewton beforeSweep (idle 110)).bullets.map
      (fun b => (b.pos.x, b.pos.y, b.vel.x, b.vel.y)) =
      [(382, 667 / 2, 0, 370), (382, 241, 0, 370), (382, 297 / 2, 0, 370)] ∧
    (∀ b ∈ (tick sqrtNewton beforeSweep (idle 110)).bullets,
      b.alive = true ∧ b.pos.y ≤ 420) ∧
    (∀ b ∈ (tick sqrtNewton beforeSweep (idle 110)).bullets,
      ∃ b0 ∈ beforeSweep.bullets ++ (spawnStep beforeSweep.battleStage (idle 110).rand
          (beforeSweep.spawnTimer + tickDt (idle 110)) ([] : List (Bullet ℚ))).2,
        b.pos.x = b0.pos.x + b0.vel.x * tickDt (idle 110) ∧
        b.pos.y = b0.pos.y + b0.vel.y * tickDt (idle 110) ∧
        b.vel = b0.vel ∧ b.r = b0.r) :=
  have h0 : beforeSweep.mode = GameMode.Battle ∧
      ¬ beforeSweep.battleTime + tickDt (idle 110) ≥ 12 ∧
      beforeSweep.bullets.map (fun b => (b.pos.x, b.pos.y, b.vel.x, b.vel.y)) =
        [(382, 815 / 2, 0, 370), (382, 315, 0, 370), (382, 445 / 2, 0, 370)] ∧
      (spawnStep beforeSweep.battleStage (idle 110).rand
          (beforeSweep.spawnTimer + tickDt (idle 110)) ([] : List (Bullet ℚ))).2.map
        (fun b => (b.pos.x, b.pos.y, b.vel.x, b.vel.y)) = [(382, 130, 0, 370)] ∧
      (tick sqrtNewton beforeSweep (idle 110)).bullets.map
        (fun b => (b.pos.x, b.pos.y, b.vel.x, b.vel.y)) =
        [(382, 667 / 2, 0, 370), (382, 241, 0, 370), (382, 297 / 2, 0, 370)] := by
    decide!
  have h := bullet_integration sqrtNewton beforeSweep (idle 110)
    (reachable_session sqrtNewton _) h0.1 h0.2.1
  ⟨h0.1, h0.2.2.1, h0.2.2.2.1, h0.2.2.2.2, h.2.2.1, h.2.2.2.1⟩

section Msg

variable {K : Type} [LinearOrderedField K]

/-! ## The damage message -/

variable [FloorRing K]

end Msg

section Edge

variable {K : Type} [LinearOrderedField K] [FloorRing K]

/-! ## Edge detection -/

set_option maxHeartbeats 1000000 in
/-- The stored previous state after a tick: the sampled state if `justPressed` was
called for the key, the old stored state otherwise. -/
theorem prev_tick (sqrtf : K → K) (k : EdgeKey) (g : Game K) (inp : Input K) :
    k.prev (tick sqrtf g inp) = if polled sqrtf k g inp then k.down inp else k.prev g := by
  unfold tick polled
  cases hm : g.mode <;> cases k <;>
    simp only [EdgeKey.prev, EdgeKey.down, updateOverworld, encounterCheck, updateEncounterMenu,
      startSoulFlyIn, updateSoulFlyIn, startBattlePhase, updateBattle, updateAttackTurn,
      updateDamageMsg, leaveDamageMsg, updateEnemyDefeated, updateGameOver, updateVictory,
      justPressed, playerRect] <;>
    split_ifs <;> simp_all

/-- While the stored previous state is true and the key is down, a tick fires no event
and leaves the stored state true. -/
theorem held_tick (sqrtf : K → K) (k : EdgeKey) (g : Game K) (inp : Input K)
    (hp : k.prev g = true) (hd : k.down inp = true) :
    fires sqrtf k g inp = false ∧ k.prev (tick sqrtf g inp) = true := by
  constructor
  · simp [fires, justPressed, hp]
  · rw [prev_tick, hd, hp]
    split_ifs <;> rfl

/-- A tick that polls the key while it is down leaves the stored state true. -/
theorem polled_tick (sqrtf : K → K) (k : EdgeKey) (g : Game K) (inp : Input K)
    (hpoll : polled sqrtf k g inp = true) (hd : k.down inp = true) :
    k.prev (tick sqrtf g inp) = true := by
  rw [prev_tick, hpoll, hd]
  rfl

theorem fireCount_held (sqrtf : K → K) (k : EdgeKey) (inps : List (Input K)) :
    ∀ g : Game K, k.prev g = true → (∀ inp ∈ inps, k.down inp = true) →
      fireCount sqrtf k g inps = 0 := by
  induction inps with
  | nil => intro g _ _; rfl
  | cons inp rest ih =>
    intro g hp hheld
    obtain ⟨h1, h2⟩ := held_tick sqrtf k g inp hp (hheld inp (List.mem_cons_self _ _))
    simp only [fireCount, h1]
    rw [ih _ h2 (fun x hx => hheld x (List.mem_cons_of_mem _ hx))]
    rfl

theorem fireCount_le_one (sqrtf : K → K) (k : EdgeKey) (inps : List (Input K)) :
    ∀ g : Game K, (∀ inp ∈ inps, k.down inp = true) → fireCount sqrtf k g inps ≤ 1 := by
  induction inps with
  | nil => intro g _; exact Nat.zero_le _
  | cons inp rest ih =>
    intro g hheld
    have hd := hheld inp (List.mem_cons_self _ _)
    have hrest : ∀ x ∈ rest, k.down x = true := fun x hx => hheld x (List.mem_cons_of_mem _ hx)
    simp only [fireCount]
    by_cases hpoll : polled sqrtf k g inp = true
    · rw [fireCount_held sqrtf k rest _ (polled_tick sqrtf k g inp hpoll hd) hrest]
      split_ifs <;> simp
    · have hf : fires sqrtf k g inp = false := by
        simp [fires, hpoll]
      rw [hf]
      simpa using ih _ hrest

/-! ## C19 -/

/-- C19: over a run of consecutive ticks on all of which the key is sampled down,
whatever the modes passed through and whether or not the key is polled in them,
`justPressed` returns true for the key at most once; it does not return true at all if
the stored previous state is true at the start of the run, or on the ticks of the run
that follow a tick on which it was called (whatever it returned). -/
theorem held_key_fires_once (sqrtf : K → K) (k : EdgeKey) (g : Game K)
    (inps : List (Input K)) (hheld : ∀ inp ∈ inps, k.down inp = true) :
    fireCount sqrtf k g inps ≤ 1 ∧
    (k.prev g = true → fireCount sqrtf k g inps = 0) ∧
    (∀ (pre : List (Input K)) (inp : Input K) (post : List (Input K)),
      inps = pre ++ inp :: post → polled sqrtf k (run sqrtf g pre) inp = true →
      fireCount sqrtf k (run sqrtf g (pre ++ [inp])) post = 0) := by
  refine ⟨fireCount_le_one sqrtf k inps g hheld,
    fun hp => fireCount_held sqrtf k inps g hp hheld, ?_⟩
  intro pre inp post hsplit hpoll
  have hd : k.down inp = true := hheld inp (by rw [hsplit]; simp)
  have hpost : ∀ x ∈ post, k.down x = true := fun x hx => hheld x (by rw [hsplit]; simp [hx])
  rw [run_append, run_cons, run_nil]
  exact fireCount_held sqrtf k post _ (polled_tick sqrtf k _ inp hpoll hd) hpost

end Edge

section Edge2

variable {K : Type} [LinearOrderedField K] [FloorRing K]

/-- When the first tick of a held run polls the key with the stored previous state
false, the event comes on that tick and it is the only one. -/
theorem fireCount_polled_first (sqrtf : K → K) (k : EdgeKey) (g : Game K) (inp : Input K)
    (rest : List (Input K)) (hheld : ∀ x ∈ inp :: rest, k.down x = true)
    (hpoll : polled sqrtf k g inp = true) (hp : k.prev g = false) :
    fires sqrtf k g inp = true ∧ fireCount sqrtf k g (inp :: rest) = 1 := by
  have hd := hheld inp (List.mem_cons_self _ _)
  have hf : fires sqrtf k g inp = true := by
    simp [fires, justPressed, hpoll, hd, hp]
  refine ⟨hf, ?_⟩
  simp only [fireCount, hf, if_true]
  rw [fireCount_held sqrtf k rest _ (polled_tick sqrtf k g inp hpoll hd)
    (fun x hx => hheld x (List.mem_cons_of_mem _ hx))]

/-! ## Edge detection where the key is polled on both ticks -/

/-- Where the stored state is fresh: for a run of consecutive ticks on which the key is
sampled down, preceded by a tick on which it was up, if `justPressed` is called for the
key on that preceding tick and on the first tick of the run, the stored previous state
is the key's state on the previous tick and the run has exactly one just-pressed event,
on its first tick. -/
theorem edge_detection_polled (sqrtf : K → K) (k : EdgeKey) (g : Game K)
    (before inp : Input K) (rest : List (Input K))
    (hup : k.down before = false) (hpoll0 : polled sqrtf k g before = true)
    (hpoll : polled sqrtf k (tick sqrtf g before) inp = true)
    (hheld : ∀ x ∈ inp :: rest, k.down x = true) :
    k.prev (tick sqrtf g before) = k.down before ∧
    fires sqrtf k (tick sqrtf g before) inp = true ∧
    fireCount sqrtf k (tick sqrtf g before) (inp :: rest) = 1 ∧
    fireCount sqrtf k (tick sqrtf (tick sqrtf g before) inp) rest = 0 := by
  have hprev : k.prev (tick sqrtf g before) = k.down before := by
    rw [prev_tick, hpoll0]
    rfl
  have hd := hheld inp (List.mem_cons_self _ _)
  obtain ⟨h1, h2⟩ := fireCount_polled_first sqrtf k (tick sqrtf g before) inp rest hheld hpoll
    (by rw [hprev, hup])
  exact ⟨hprev, h1, h2,
    fireCount_held sqrtf k rest _ (polled_tick sqrtf k _ inp hpoll hd)
      (fun x hx => hheld x (List.mem_cons_of_mem _ hx))⟩

end Edge2

/-- Witness of C19: `Enter` held through the overworld and into the menu fires once. -/
theorem held_key_fires_once_witness :
    (∀ inp ∈ heldEnter, EdgeKey.Enter.down inp = true) ∧
    fireCount sqrtNewton EdgeKey.Enter (tick sqrtNewton init (idle 0)) heldEnter ≤ 1 :=
  have h : ∀ inp ∈ heldEnter, EdgeKey.Enter.down inp = true := by decide!
  ⟨h, (held_key_fires_once sqrtNewton EdgeKey.Enter (tick sqrtNewton init (idle 0))
    heldEnter h).1⟩

/-- C13, the code at the failing input: after a tick with `Enter` up, `Enter` is held
for 47 ticks (`heldEnter`), through the walk to the trigger and into the menu.  On the
first tick of the press `justPressed` is not called for `Enter` (the overworld does
not poll it): no event is produced and the stored `prevEnter` stays false while the key
is down.  So it is for the first 46 ticks.  The call on the 47th tick of the press, the
first menu tick, finds the stale `prevEnter = false` and returns true for a key that did
not become pressed on that tick, and the menu confirms "walk away" at once. -/
theorem edge_detection_stale :
    (idle 0).keyEnter = false ∧ heldEnter.length = 47 ∧
    (∀ inp ∈ heldEnter, inp.keyEnter = true) ∧
    fires sqrtNewton EdgeKey.Enter (tick sqrtNewton init (idle 0))
      { idle 0 with keyD := true, keyEnter := true } = false ∧
    (tick sqrtNewton (tick sqrtNewton init (idle 0))
      { idle 0 with keyD := true, keyEnter := true }).prevEnter = false ∧
    fireCount sqrtNewton EdgeKey.Enter (tick sqrtNewton init (idle 0)) (heldEnter.take 46) = 0 ∧
    (run sqrtNewton init (idle 0 :: heldEnter.take 46)).mode = GameMode.EncounterMenu ∧
    (run sqrtNewton init (idle 0 :: heldEnter.take 46)).prevEnter = false ∧
    fires sqrtNewton EdgeKey.Enter (run sqrtNewton init (idle 0 :: heldEnter.take 46))
      { idle 0 with keyEnter := true } = true ∧
    (run sqrtNewton init (idle 0 :: heldEnter)).mode = GameMode.Overworld := by
  decide!

/-- Example of `edge_detection_polled`: in the menu of the sample sessions, a tick with
`Enter` up followed by `Enter` held for three ticks gives one event, on the first of
the three. -/
theorem edge_detection_polled_example :
    fires sqrtNewton EdgeKey.Enter (tick sqrtNewton atMenuAttack (idle 0))
      { idle 0 with keyEnter := true } = true ∧
    fireCount sqrtNewton EdgeKey.Enter (tick sqrtNewton atMenuAttack (idle 0))
      (List.replicate 3 { idle 0 with keyEnter := true }) = 1 :=
  have h : EdgeKey.Enter.down (idle 0) = false ∧
      polled sqrtNewton EdgeKey.Enter atMenuAttack (idle 0) = true ∧
      polled sqrtNewton EdgeKey.Enter (tick sqrtNewton atMenuAttack (idle 0))
        { idle 0 with keyEnter := true } = true ∧
      (∀ x ∈ List.replicate 3 ({ idle 0 with keyEnter := true } : Input ℚ),
        EdgeKey.Enter.down x = true) := by decide!
  have h1 := edge_detection_polled sqrtNewton EdgeKey.Enter atMenuAttack (idle 0)
    { idle 0 with keyEnter := true } (List.replicate 2 { idle 0 with keyEnter := true })
    h.1 h.2.1 h.2.2.1 h.2.2.2
  ⟨h1.2.1, h1.2.2.1⟩

end Laintale
